import Mathlib

/-!
# A verification development for the DocDiff repository

This file gives a shallow embedding in Lean of the core of the DocDiff
construction-PDF set differ, and proves (or refutes) a list of claims
about it.  The embedding follows the Python sources:

* `src/docdiff/match.py`      — fingerprinting, composite scoring, matching
* `src/docdiff/diff_notes.py` — note-bullet extraction and diffing
* `src/docdiff/diff_tables.py`— table row-signature diffing
* `src/docdiff/cli.py`        — impact scoring, change rows, deduplication
* `src/docdiff.py`            — the v0.1 script (its spec-section diff),
                                embedded in namespace `V0`

Conventions of the embedding:

* Python `str` is modelled as `List Char` (`Str` below); Python floats
  that carry scores/weights are modelled as `ℚ` (every arithmetic
  operation involved is exact on the values that occur).
* External library functions that the core treats as black boxes are
  parameters: `tokHash` stands for the truncated SHA-1 token hash used by
  `simhash64`, `wratio` for `rapidfuzz.fuzz.WRatio`, and `sh` for the
  truncated SHA-1 `short_hash`.  Every theorem quantifies over them (with
  the library's documented range as a hypothesis where needed).
* Python `dict` iteration order (insertion order) is modelled explicitly
  with association lists.
-/

namespace DocDiff

/-- Python `str` is modelled as a list of characters. -/
abbrev Str := List Char

/-- The characters Python's `str.strip()` and the regex class `\s` treat as
whitespace (ASCII subset, which is all the sources rely on). -/
def isWs (c : Char) : Bool :=
  c == ' ' || c == '\t' || c == '\n' || c == '\r' || c == '\x0b' || c == '\x0c'

/-- Python `str.strip()`. -/
def strip (s : Str) : Str :=
  ((s.dropWhile isWs).reverse.dropWhile isWs).reverse

/-- Worker for `collapseWs` over a character class `p`; the flag records
whether the previous character belonged to an open run. -/
def collapseRunsAux (p : Char → Bool) (rep : Char) : Bool → Str → Str
  | _, [] => []
  | inRun, c :: rest =>
    if p c then
      if inRun then collapseRunsAux p rep true rest
      else rep :: collapseRunsAux p rep true rest
    else c :: collapseRunsAux p rep false rest

/-- Python `re.sub(r"<class>+", rep, s)`: collapse every maximal run of
`p`-characters to the single character `rep`. -/
def collapseRuns (p : Char → Bool) (rep : Char) (s : Str) : Str :=
  collapseRunsAux p rep false s

/-- Python `re.sub(r"\s+", " ", s)`. -/
def collapseWs (s : Str) : Str := collapseRuns isWs ' ' s

/-- Python `re.sub(r"[ \t]+", " ", s)`. -/
def squeezeSpaces (s : Str) : Str := collapseRuns (fun c => c == ' ' || c == '\t') ' ' s

/-- Worker for `squeezeNewlines`: `k` counts newlines pending emission. -/
def squeezeNewlinesAux : ℕ → Str → Str
  | k, [] => List.replicate (if 3 ≤ k then 2 else k) '\n'
  | k, c :: rest =>
    if c == '\n' then squeezeNewlinesAux (k + 1) rest
    else
      List.replicate (if 3 ≤ k then 2 else k) '\n' ++ c :: squeezeNewlinesAux 0 rest

/-- Python `re.sub(r"\n{3,}", "\n\n", s)`: replace every run of three or
more newlines with exactly two. -/
def squeezeNewlines (s : Str) : Str := squeezeNewlinesAux 0 s

/-- Function `normalize_whitespace` from `src/docdiff/identify.py` (identical in
`src/docdiff.py`): `\r`→`\n`, collapse `[ \t]+` to one space, collapse
`\n{3,}` to two newlines, then strip. -/
def normalize_whitespace (s : Str) : Str :=
  strip (squeezeNewlines (squeezeSpaces (s.map (fun c => if c == '\r' then '\n' else c))))

/-- Line-break characters recognised by Python `str.splitlines`. -/
def isLineBreak (c : Char) : Bool :=
  c == '\n' || c == '\r' || c == '\x0b' || c == '\x0c' ||
  c == '\x1c' || c == '\x1d' || c == '\x1e' || c == '\x85' ||
  c == '\u2028' || c == '\u2029'

/-- Worker for `splitlines`; `acc` holds the current line reversed. -/
def splitlinesAux : Str → Str → List Str
  | acc, [] => if acc.isEmpty then [] else [acc.reverse]
  | acc, '\r' :: '\n' :: rest => acc.reverse :: splitlinesAux [] rest
  | acc, c :: rest =>
    if isLineBreak c then acc.reverse :: splitlinesAux [] rest
    else splitlinesAux (c :: acc) rest

/-- Python `str.splitlines()`. -/
def splitlines (s : Str) : List Str := splitlinesAux [] s

/-- Python `sep.join(xs)`. -/
def joinSep (sep : Str) : List Str → Str
  | [] => []
  | [x] => x
  | x :: xs => x ++ sep ++ joinSep sep xs

/-- Python `needle in hay` on strings (contiguous substring test). -/
def containsSub (needle : Str) : Str → Bool
  | [] => needle.isEmpty
  | c :: rest => needle.isPrefixOf (c :: rest) || containsSub needle rest

/-- Python regex `\w` (ASCII fragment, all that the phrases need). -/
def isWordChar (c : Char) : Bool := c.isAlphanum || c == '_'

/-- Whether a string starts with a non-word character (or is empty): the
state of a `\b` boundary placed after a word character. -/
def boundaryAt : Str → Bool
  | [] => true
  | c :: _ => !isWordChar c

/-- Worker for `hasWordPhrase`: `prev` is the character preceding the
current suffix (`none` at the start of the text). -/
def wordSearchAux (phrase : Str) (prev : Option Char) : Str → Bool
  | [] => false
  | c :: rest =>
    ((match prev with
      | none => true
      | some p => !isWordChar p) &&
     phrase.isPrefixOf (c :: rest) &&
     boundaryAt ((c :: rest).drop phrase.length))
    || wordSearchAux phrase (some c) rest

/-- Python `re.search(r"\b<phrase>\b", text)` for a phrase that starts and
ends with a word character. -/
def hasWordPhrase (phrase text : Str) : Bool := wordSearchAux phrase none text

end DocDiff

namespace DocDiff

/-! ## `src/docdiff/cli.py` — flags and impact scoring -/

/-- Function `apply_flags` (`src/docdiff/cli.py` lines 37–43; the loop in
`src/docdiff.py` lines 125–133 computes the same list): the flag groups,
in configuration order, one of whose terms occurs case-insensitively in
the text. -/
def apply_flags (flags_cfg : List (Str × List Str)) (text : Str) : List Str :=
  let text_lower := text.map Char.toLower
  (flags_cfg.filter
    (fun g => g.2.any (fun term => containsSub (term.map Char.toLower) text_lower))).map
    (fun g => g.1)

/-- The fixed responsibility-language alternatives of the regex in
`compute_impact` (`src/docdiff/cli.py` line 58). -/
def responsibility_phrases : List Str :=
  ["contractor shall".toList, "provide".toList, "include".toList, "by others".toList]

/-- The test `re.search(r"\b(contractor shall|provide|include|by others)\b",
after, re.IGNORECASE)` from `compute_impact`. -/
def has_responsibility (after : Str) : Bool :=
  responsibility_phrases.any (fun p => hasWordPhrase p (after.map Char.toLower))

/-- Function `compute_impact` (`src/docdiff/cli.py` lines 46–61).  Returns the
capped additive score and the `"; "`-joined rationale.  The `before`
argument is kept to mirror the Python signature (it is unused there
too). -/
def compute_impact (change_type : Str) (flags : List Str) (before after : Str)
    (table_delta : Bool) : ℕ × Str :=
  let s0 : ℕ × List Str := (0, [])
  let s1 :=
    if change_type == "Added".toList || change_type == "Removed".toList then
      (s0.1 + 20, s0.2 ++ ["sheet/spec presence changed".toList])
    else s0
  let s2 :=
    if table_delta then (s1.1 + 20, s1.2 ++ ["schedule row delta".toList]) else s1
  let s3 :=
    if !flags.isEmpty then
      (s2.1 + 15, s2.2 ++ ["flags: ".toList ++ joinSep ", ".toList flags])
    else s2
  let s4 :=
    if has_responsibility after then
      (s3.1 + 10, s3.2 ++ ["responsibility language changed".toList])
    else s3
  (min s4.1 100, joinSep "; ".toList s4.2)

end DocDiff

namespace DocDiff

/-! ## `src/docdiff/models.py` — data model -/

/-- Structure `PageExtract` (`src/docdiff/models.py`).  `page_num`,
`pdf_path` and `title_block_text` are carried for fidelity; the claims
never inspect them.  `fingerprint` defaults to `0` in the source, and `0`
is falsy in Python — see `page_fp` below. -/
structure PageExtract where
  pdf_path : Str
  page_num : ℕ
  text : Str
  sheet_id : Option Str
  sheet_title_hint : Option Str
  discipline : Str
  tables : List (List (List Str))
  title_block_text : Str
  fingerprint : ℕ
deriving DecidableEq, Repr

/-- Structure `DocSet` (`src/docdiff/models.py`). -/
structure DocSet where
  name : Str
  root : Str
  pages : List PageExtract
deriving DecidableEq, Repr

/-- The evidence strings that `_composite_score` and `match_pages` append.
The two numeric evidence entries interpolate a similarity ratio with
`"%.2f"` formatting; the embedding keeps the exact rational instead of its
decimal rendering. -/
inductive Reason where
  | sheet_id_exact : Reason
  | title_exact : Reason
  | title : ℚ → Reason
  | discipline : Reason
  | fingerprint : ℚ → Reason
  | no_candidate : Reason
deriving DecidableEq, Repr

/-- Structure `MatchResult` (`src/docdiff/models.py`). -/
structure MatchResult where
  from_page : PageExtract
  to_page : Option PageExtract
  score : ℚ
  confidence : Str
  reasons : List Reason
deriving DecidableEq, Repr

/-- Structure `ChangeRow` (`src/docdiff/models.py`, fourteen fields). -/
structure ChangeRow where
  change_id : Str
  set_from : Str
  set_to : Str
  discipline : Str
  doc_type : Str
  reference : Str
  change_type : Str
  change_summary : Str
  before_snippet : Str
  after_snippet : Str
  confidence : Str
  auto_flags : Str
  impact_score : ℕ
  impact_rationale : Str
deriving DecidableEq, Repr

/-! ## `src/docdiff/match.py` — fingerprinting, scoring, matching

The SHA-1-derived 64-bit token hash (`match.py` line 23) is external
library code, so the whole module is parameterised by a token-hash
function `h : Str → ℕ`; only bits 0–63 of its values are ever read, as in
the source.  `rapidfuzz.fuzz.WRatio` is likewise a parameter
`wr : Str → Str → ℚ`; the library documents its range as `[0, 100]`. -/

/-- Python truthiness of an `Optional[str]` field. -/
def truthyOpt : Option Str → Bool
  | none => false
  | some s => !s.isEmpty

/-- Python `x or ""` for an `Optional[str]`. -/
def pyOptStr (o : Option Str) : Str := o.getD []

/-- One lowercase-alphanumeric token character of the regex
`[a-z0-9]{3,}` applied to lowercased text. -/
def isTokChar (c : Char) : Bool := ('a' ≤ c && c ≤ 'z') || ('0' ≤ c && c ≤ '9')

/-- Worker for `tokenRuns`; `acc` holds the current run reversed. -/
def tokenRunsAux : Str → Str → List Str
  | acc, [] => if acc.isEmpty then [] else [acc.reverse]
  | acc, c :: rest =>
    if isTokChar c then tokenRunsAux (c :: acc) rest
    else if acc.isEmpty then tokenRunsAux [] rest
    else acc.reverse :: tokenRunsAux [] rest

/-- Maximal runs of token characters, in order. -/
def tokenRuns (s : Str) : List Str := tokenRunsAux [] s

/-- Function `_tokenize` (`match.py` lines 16–17):
`re.findall(r"[a-z0-9]{3,}", text.lower())`, i.e. the maximal
alphanumeric runs of the lowercased text that have length at least 3. -/
def _tokenize (text : Str) : List Str :=
  (tokenRuns (text.map Char.toLower)).filter (fun r => 3 ≤ r.length)

/-- The per-bit contribution of one token hash: `+1` if the bit is set,
`-1` otherwise (`match.py` line 25). -/
def bitOf (hv : ℕ) (i : ℕ) : ℤ := if (hv >>> i) % 2 == 1 then 1 else -1

/-- The inner loop `for i in range(64): vec[i] += ±1` of `simhash64`,
applied to the whole accumulator list starting at bit index `i`. -/
def addBits (hv : ℕ) : ℕ → List ℤ → List ℤ
  | _, [] => []
  | i, v :: vs => (v + bitOf hv i) :: addBits hv (i + 1) vs

/-- The output loop of `simhash64`: `out |= 1 << i` for every accumulator
slot that is `≥ 0` (`match.py` lines 26–29). -/
def outBits : ℕ → List ℤ → ℕ
  | _, [] => 0
  | i, v :: vs => (if 0 ≤ v then 1 <<< i else 0) ||| outBits (i + 1) vs

/-- Function `simhash64` (`match.py` lines 20–30), parameterised by the
64-bit token hash `h`. -/
def simhash64 (h : Str → ℕ) (text : Str) : ℕ :=
  let toks := (_tokenize text).take 5000
  let vec := toks.foldl (fun vec tok => addBits (h tok) 0 vec) (List.replicate 64 (0 : ℤ))
  outBits 0 vec

/-- Worker for `bit_count`, structurally recursive on a fuel argument
that dominates the recursion depth (`n / 2 < n` for `n ≠ 0`). -/
def bitCountAux : ℕ → ℕ → ℕ
  | 0, _ => 0
  | fuel + 1, n => if n = 0 then 0 else n % 2 + bitCountAux fuel (n / 2)

/-- Population count of a natural number (Python `int.bit_count`). -/
def bit_count (n : ℕ) : ℕ := bitCountAux n n

/-- Function `hamming_similarity` (`match.py` lines 33–36):
`1 - popcount(a ^ b) / 64`. -/
def hamming_similarity (a b : ℕ) : ℚ :=
  1 - (bit_count (a ^^^ b) : ℚ) / 64

/-- The four weights `_composite_score` reads from its weight dictionary,
already resolved against the defaults of `weights.get(key, default)`
(`match.py` lines 44, 52, 59, 65). -/
structure Weights where
  sheet_id_exact : ℚ
  title_similarity : ℚ
  discipline_similarity : ℚ
  fingerprint_similarity : ℚ
deriving DecidableEq, Repr

/-- The default weights: 60 / 20 / 10 / 10. -/
def defaultWeights : Weights := ⟨60, 20, 10, 10⟩

/-- Python `src.fingerprint or simhash64(src.text)` (`match.py` lines
62–63): the stored fingerprint if non-zero (`0` is falsy), else the
simhash of the page text. -/
def page_fp (h : Str → ℕ) (p : PageExtract) : ℕ :=
  if p.fingerprint ≠ 0 then p.fingerprint else simhash64 h p.text

/-- Function `_composite_score` (`match.py` lines 39–68), parameterised by
`wr` (= `fuzz.WRatio`) and the token hash `h`. -/
def _composite_score (wr : Str → Str → ℚ) (h : Str → ℕ)
    (src dst : PageExtract) (w : Weights) : ℚ × List Reason :=
  let s0 : ℚ × List Reason := (0, [])
  let s1 :=
    if truthyOpt src.sheet_id && truthyOpt dst.sheet_id &&
        (src.sheet_id == dst.sheet_id) then
      (s0.1 + w.sheet_id_exact, s0.2 ++ [Reason.sheet_id_exact])
    else s0
  let s2 :=
    if truthyOpt src.sheet_title_hint || truthyOpt dst.sheet_title_hint then
      let src_title := strip ((pyOptStr src.sheet_title_hint).map Char.toUpper)
      let dst_title := strip ((pyOptStr dst.sheet_title_hint).map Char.toUpper)
      let title_sim := wr src_title dst_title / 100
      let sA := (s1.1 + title_sim * w.title_similarity, s1.2)
      let sB :=
        if !src_title.isEmpty && src_title == dst_title then
          (sA.1 + 10, sA.2 ++ [Reason.title_exact])
        else sA
      (sB.1, sB.2 ++ [Reason.title title_sim])
    else s1
  let s3 :=
    if src.discipline != "Unknown".toList && src.discipline == dst.discipline then
      (s2.1 + w.discipline_similarity, s2.2 ++ [Reason.discipline])
    else s2
  let fp_sim := hamming_similarity (page_fp h src) (page_fp h dst)
  (s3.1 + fp_sim * w.fingerprint_similarity, s3.2 ++ [Reason.fingerprint fp_sim])

/-- Function `_confidence` (`match.py` lines 71–76). -/
def _confidence (score : ℚ) : Str :=
  if 80 ≤ score then "High".toList
  else if 55 ≤ score then "Med".toList
  else "Low".toList

/-- Membership test `src.sheet_id in by_sheet` for the index that
`match_pages` builds (`match.py` lines 91–94): the keys are exactly the
truthy sheet identifiers of the target pages. -/
def sheet_index_has (to_pages : List PageExtract) (sid : Str) : Bool :=
  to_pages.any (fun p => truthyOpt p.sheet_id && p.sheet_id == some sid)

/-- Lookup `by_sheet[sid]` of that index: the target pages with that
truthy sheet identifier, in ingestion order. -/
def by_sheet_lookup (to_pages : List PageExtract) (sid : Str) : List PageExtract :=
  to_pages.filter (fun p => truthyOpt p.sheet_id && p.sheet_id == some sid)

/-- Function `_candidate_pool` (`match.py` lines 79–86), with the
`by_sheet` index inlined as the two functions above. -/
def _candidate_pool (src : PageExtract) (to_pages : List PageExtract) :
    List PageExtract :=
  if truthyOpt src.sheet_id && sheet_index_has to_pages (pyOptStr src.sheet_id) then
    by_sheet_lookup to_pages (pyOptStr src.sheet_id)
  else if src.discipline != "Unknown".toList then
    let subset := to_pages.filter (fun p => p.discipline == src.discipline)
    if !subset.isEmpty then subset else to_pages
  else to_pages

/-- The best-candidate scan of `match_pages` (`match.py` lines 99–107):
fold over the candidates keeping the first strictly-better candidate,
starting from `best_score = -1.0`. -/
def bestFold (f : PageExtract → ℚ × List Reason) (cands : List PageExtract) :
    Option PageExtract × ℚ × List Reason :=
  cands.foldl
    (fun acc dst =>
      let sr := f dst
      if acc.2.1 < sr.1 then (some dst, sr.1, sr.2) else acc)
    (none, -1, [])

/-- Function `match_pages` (`match.py` lines 89–114), with resolved
weights `w`. -/
def match_pages (wr : Str → Str → ℚ) (h : Str → ℕ)
    (from_set to_set : DocSet) (w : Weights) : List MatchResult :=
  from_set.pages.map (fun src =>
    let candidates := _candidate_pool src to_set.pages
    let best := bestFold (fun dst => _composite_score wr h src dst w) candidates
    match best.1 with
    | none => ⟨src, none, 0, "Low".toList, [Reason.no_candidate]⟩
    | some bp => ⟨src, some bp, best.2.1, _confidence best.2.1, best.2.2⟩)

end DocDiff

namespace DocDiff

/-! ## `src/docdiff/diff_notes.py` — note bullets

The bullet regex `^(\(?\d{1,3}\)?[.)]|[A-Z][.)]|[-•])\s+` is compiled by
hand, alternative by alternative, with Python's leftmost backtracking
semantics. -/

/-- Whether a string starts with a `\s` character (the trailing `\s+` of
the bullet regex; one whitespace character suffices for a match). -/
def headWs : Str → Bool
  | [] => false
  | c :: _ => isWs c

/-- Quantifier-free tail `[.)]\s+` of the first alternative. -/
def afterPunct : Str → Bool
  | [] => false
  | c :: rest => (c == '.' || c == ')') && headWs rest

/-- Tail `\)?[.)]\s+` of the first alternative: either consume a leading
`)` for `\)?` and match `[.)]\s+` on the rest, or leave `\)?` empty and
match `[.)]\s+` directly (Python tries the first option first; as a
disjunction the order is immaterial). -/
def enumTail (s : Str) : Bool :=
  (s.head? == some ')' && afterPunct s.tail) || afterPunct s

/-- Part `\d{1,3}\)?[.)]\s+` of the first alternative: up to three digits,
greedy with backtracking. -/
def enumDigits (s : Str) : Bool :=
  match s with
  | a :: b :: c :: r =>
    (a.isDigit && b.isDigit && c.isDigit && enumTail r) ||
    (a.isDigit && b.isDigit && enumTail (c :: r)) ||
    (a.isDigit && enumTail (b :: c :: r))
  | a :: b :: r => (a.isDigit && b.isDigit && enumTail r) || (a.isDigit && enumTail (b :: r))
  | a :: r => a.isDigit && enumTail r
  | [] => false

/-- The full first alternative `\(?\d{1,3}\)?[.)]\s+`: the optional `(`
is consumed when present, or left unconsumed (the latter only matters to
mirror the regex faithfully — a `(` can never start `\d{1,3}`). -/
def enumNumbered (l : Str) : Bool :=
  (l.head? == some '(' && enumDigits l.tail) || enumDigits l

/-- Second alternative `[A-Z][.)]\s+`. -/
def enumLettered (l : Str) : Bool :=
  match l with
  | u :: c :: rest => ('A' ≤ u && u ≤ 'Z') && (c == '.' || c == ')') && headWs rest
  | _ => false

/-- Third alternative `[-•]\s+`. -/
def enumDashed (l : Str) : Bool :=
  match l with
  | d :: rest => (d == '-' || d == '•') && headWs rest
  | _ => false

/-- The whole enumerator regex match
`re.match(r"^(\(?\d{1,3}\)?[.)]|[A-Z][.)]|[-•])\s+", line)`
(`diff_notes.py` line 12). -/
def matchEnum (l : Str) : Bool := enumNumbered l || enumLettered l || enumDashed l

/-- Whether the word `w` (given lowercase) is a case-insensitive prefix of
`l` followed by a `\b` boundary: one alternative of
`re.match(r"^(KEYNOTE|GENERAL NOTES|NOTE)\b", line, re.IGNORECASE)`. -/
def startsWordCI (w l : Str) : Bool :=
  let low := l.map Char.toLower
  w.isPrefixOf low && boundaryAt (low.drop w.length)

/-- The note-word regex match of `diff_notes.py` line 14. -/
def matchNoteWord (l : Str) : Bool :=
  startsWordCI "keynote".toList l || startsWordCI "general notes".toList l ||
  startsWordCI "note".toList l

/-- The deduplication key of `diff_notes.py` line 19:
`re.sub(r"\s+", " ", bullet).lower()`. -/
def bullet_key (b : Str) : Str := (collapseWs b).map Char.toLower

/-- The dedup loop of `split_note_bullets`: keep each bullet whose key has
not been seen, preserving first-seen order. -/
def dedupByKeyAux (key : Str → Str) (seen : List Str) : List Str → List Str
  | [] => []
  | b :: rest =>
    if seen.contains (key b) then dedupByKeyAux key seen rest
    else b :: dedupByKeyAux key (key b :: seen) rest

/-- Function `split_note_bullets` (`src/docdiff/diff_notes.py` lines
7–23). -/
def split_note_bullets (text : Str) (min_len : ℕ) : List Str :=
  let lines := ((splitlines text).map strip).filter (fun l => !l.isEmpty)
  let bullets := lines.filter (fun l => min_len ≤ l.length && (matchEnum l || matchNoteWord l))
  dedupByKeyAux bullet_key [] bullets

end DocDiff

namespace DocDiff

/-! ## `src/docdiff/diff_tables.py` — table row-signature diffing -/

/-- Function `normalize_cell` (`diff_tables.py` lines 9–10). -/
def normalize_cell (v : Str) : Str := collapseWs (strip v)

/-- Function `table_signature` (`diff_tables.py` lines 23–24): for every
row that is a non-empty list, join its cells whose normalisation is
non-empty with `" | "`.  Note that a row of cells that all normalise to
the empty string still contributes the empty signature. -/
def table_signature (table : List (List Str)) : List Str :=
  (table.filter (fun row => !row.isEmpty)).map
    (fun row =>
      joinSep " | ".toList
        ((row.filter (fun c => !(normalize_cell c).isEmpty)).map normalize_cell))

/-- All row signatures of a side, tables concatenated in order; the
Python code accumulates them into a `set`, which the embedding models by
deduplicating wherever a size is taken. -/
def rowSigs (tables : List (List (List Str))) : List Str :=
  (tables.map table_signature).flatten

/-- Function `diff_tables` (`diff_tables.py` lines 27–34): the sizes of
the two set differences `after - before` and `before - after`. -/
def diff_tables (before_tables after_tables : List (List (List Str))) : ℕ × ℕ :=
  let before_rows := rowSigs before_tables
  let after_rows := rowSigs after_tables
  ((after_rows.dedup.filter (fun s => !before_rows.contains s)).length,
   (before_rows.dedup.filter (fun s => !after_rows.contains s)).length)

/-- The table branch of `compare_sets` (`src/docdiff/cli.py` lines
122–128): the change rows (zero or one) that a matched page pair
contributes for its tables.  `sh` is the external `short_hash`;
`reference` and `confidence` come from the enclosing loop. -/
def tables_branch (sh : List Str → Str) (flags_cfg : List (Str × List Str))
    (max_snippet : ℕ) (set_from set_to : Str) (source target : PageExtract)
    (reference confidence : Str) : List ChangeRow :=
  let ar := diff_tables source.tables target.tables
  if ar.1 ≠ 0 || ar.2 ≠ 0 then
    let before :=
      if !source.tables.isEmpty then
        (joinSep "\n".toList ((table_signature (source.tables.headD [])).take 30)).take
          max_snippet
      else []
    let after :=
      if !target.tables.isEmpty then
        (joinSep "\n".toList ((table_signature (target.tables.headD [])).take 30)).take
          max_snippet
      else []
    let flags := apply_flags flags_cfg (before ++ "\n".toList ++ after)
    let ir := compute_impact "Modified".toList flags before after true
    [{ change_id := sh [set_from, set_to, reference, "tables".toList,
         (Nat.repr ar.1).toList, (Nat.repr ar.2).toList]
       set_from := set_from
       set_to := set_to
       discipline := source.discipline
       doc_type := "Drawing".toList
       reference := reference
       change_type := "Modified".toList
       change_summary := "Table delta on ".toList ++ reference ++ ": +".toList ++
         (Nat.repr ar.1).toList ++ " / -".toList ++ (Nat.repr ar.2).toList
       before_snippet := before
       after_snippet := after
       confidence := confidence
       auto_flags := joinSep ";".toList flags
       impact_score := ir.1
       impact_rationale := ir.2 }]
  else []

/-- The deduplication of `compare_sets` (`src/docdiff/cli.py` lines
139–140) and of `main` in `src/docdiff.py` (lines 766–770): build
`{row.change_id: row for row in rows}` — a Python dict keeps the first
insertion position of a key and the last value written to it — and take
its values. -/
def dictUpsert (acc : List (Str × ChangeRow)) (r : ChangeRow) : List (Str × ChangeRow) :=
  if acc.any (fun p => p.1 == r.change_id) then
    acc.map (fun p => if p.1 == r.change_id then (p.1, r) else p)
  else acc ++ [(r.change_id, r)]

/-- Row deduplication by `change_id`, last write wins. -/
def dedupe_rows (rows : List ChangeRow) : List ChangeRow :=
  (rows.foldl dictUpsert []).map (fun p => p.2)

end DocDiff

namespace DocDiff

/-- Lexicographic (code-point) order on strings, as Python `sorted` uses
for `str`. -/
def strLeB : Str → Str → Bool
  | [], _ => true
  | _ :: _, [] => false
  | a :: as, b :: bs => if a == b then strLeB as bs else decide (a < b)

/-- Python `sorted` on a list of strings. -/
def sortStr (l : List Str) : List Str :=
  l.insertionSort (fun a b => strLeB a b = true)

end DocDiff

namespace DocDiff

namespace V0

/-! ## `src/docdiff.py` — the v0.1 script

Only the parts that the claims reach are embedded: `compute_impact_score`
and the specification-section branch of `compare_sets` (lines 492–561),
which works on the section dictionaries produced by
`extract_spec_sections`.  Section dictionaries are modelled as
association lists with distinct keys (a Python `dict`). -/

/-- Structure `ChangeRow` of `src/docdiff.py` (thirteen fields, no
rationale column). -/
structure ChangeRow where
  change_id : Str
  set_from : Str
  set_to : Str
  discipline : Str
  doc_type : Str
  reference : Str
  change_type : Str
  change_summary : Str
  before_snippet : Str
  after_snippet : Str
  confidence : Str
  auto_flags : Str
  impact_score : ℕ
deriving DecidableEq, Repr

/-- Function `compute_impact_score` (`src/docdiff.py` lines 136–151). -/
def compute_impact_score (change_type : Str) (flags : List Str) (before after : Str)
    (is_new_section : Bool) (table_delta : Bool) : ℕ :=
  let s : ℕ := 0
  let s := if is_new_section then s + 25 else s
  let s := if table_delta then s + 20 else s
  let s := if (change_type.map Char.toLower) == "added".toList then s + 10 else s
  let s := if (change_type.map Char.toLower) == "removed".toList then s + 8 else s
  let s := if !flags.isEmpty then s + 15 else s
  let s :=
    if hasWordPhrase "provide".toList (after.map Char.toLower) &&
        !hasWordPhrase "provide".toList (before.map Char.toLower) then
      s + 10
    else s
  min s 100

/-- Dictionary lookup `secs[sec]` on a section association list (the
claims only apply it to keys that are present). -/
def lookupSec (secs : List (Str × Str)) (sec : Str) : Str :=
  ((secs.find? (fun p => p.1 == sec)).map (fun p => p.2)).getD []

/-- One `Added` row of the spec-section branch (`src/docdiff.py` lines
500–518). -/
def mkAdded (sh : List Str → Str) (flags_cfg : List (Str × List Str)) (max_snip : ℕ)
    (set_from set_to : Str) (t_secs : List (Str × Str)) (sec : Str) : ChangeRow :=
  let after := lookupSec t_secs sec
  let flags := apply_flags flags_cfg after
  let summary := "Spec section appears in ".toList ++ set_to ++ " but not in ".toList ++
    set_from ++ ": ".toList ++ sec
  { change_id := sh [set_from, set_to, "Spec ".toList ++ sec, "Added".toList, summary]
    set_from := set_from
    set_to := set_to
    discipline := "Specifications".toList
    doc_type := "Spec".toList
    reference := sec
    change_type := "Added".toList
    change_summary := summary
    before_snippet := []
    after_snippet := after.take max_snip
    confidence := "High".toList
    auto_flags := joinSep ";".toList flags
    impact_score := compute_impact_score "Added".toList flags [] after true false }

/-- One `Removed` row of the spec-section branch (`src/docdiff.py` lines
520–537). -/
def mkRemoved (sh : List Str → Str) (max_snip : ℕ)
    (set_from set_to : Str) (f_secs : List (Str × Str)) (sec : Str) : ChangeRow :=
  let before := lookupSec f_secs sec
  let summary := "Spec section present in ".toList ++ set_from ++
    " but missing in ".toList ++ set_to ++ ": ".toList ++ sec
  { change_id := sh [set_from, set_to, "Spec ".toList ++ sec, "Removed".toList, summary]
    set_from := set_from
    set_to := set_to
    discipline := "Specifications".toList
    doc_type := "Spec".toList
    reference := sec
    change_type := "Removed".toList
    change_summary := summary
    before_snippet := before.take max_snip
    after_snippet := []
    confidence := "High".toList
    auto_flags := []
    impact_score := 20 }

/-- One `Modified` row of the spec-section branch (`src/docdiff.py` lines
540–560). -/
def mkModified (sh : List Str → Str) (flags_cfg : List (Str × List Str)) (max_snip : ℕ)
    (set_from set_to : Str) (f_secs t_secs : List (Str × Str)) (sec : Str) : ChangeRow :=
  let before := lookupSec f_secs sec
  let after := lookupSec t_secs sec
  let flags := apply_flags flags_cfg after
  let summary := "Spec section modified: ".toList ++ sec
  { change_id := sh [set_from, set_to, "Spec ".toList ++ sec, "Modified".toList, summary]
    set_from := set_from
    set_to := set_to
    discipline := "Specifications".toList
    doc_type := "Spec".toList
    reference := sec
    change_type := "Modified".toList
    change_summary := summary
    before_snippet := before.take max_snip
    after_snippet := after.take max_snip
    confidence := "High".toList
    auto_flags := joinSep ";".toList flags
    impact_score := compute_impact_score "Modified".toList flags before after false false }

/-- The specification-section branch of `compare_sets` (`src/docdiff.py`
lines 492–561), factored over the two section dictionaries: `Added` rows
for the sorted keys only in `t_secs`, `Removed` rows for the sorted keys
only in `f_secs`, and `Modified` rows for the sorted common keys whose
whitespace-normalised chunks have different `short_hash`es.  `sh` is the
external `short_hash` over a part list. -/
def spec_section_changes (sh : List Str → Str) (flags_cfg : List (Str × List Str))
    (max_snip : ℕ) (set_from set_to : Str)
    (f_secs t_secs : List (Str × Str)) : List ChangeRow :=
  let f_keys := f_secs.map (fun p => p.1)
  let t_keys := t_secs.map (fun p => p.1)
  let addedKeys := sortStr (t_keys.filter (fun k => !f_keys.contains k))
  let removedKeys := sortStr (f_keys.filter (fun k => !t_keys.contains k))
  let bothKeys := sortStr (f_keys.filter (fun k => t_keys.contains k))
  addedKeys.map (mkAdded sh flags_cfg max_snip set_from set_to t_secs) ++
  removedKeys.map (mkRemoved sh max_snip set_from set_to f_secs) ++
  (bothKeys.filter
      (fun sec =>
        sh [normalize_whitespace (lookupSec f_secs sec)] !=
        sh [normalize_whitespace (lookupSec t_secs sec)])).map
    (mkModified sh flags_cfg max_snip set_from set_to f_secs t_secs)

end V0

end DocDiff

namespace DocDiff

/-! ## Specification-side definitions

The definitions in this section are written from the words of the
specification (not from the source), to be compared with the embedded
code.  Each name carries the `spec` prefix. -/

/-- Spec-side table signature: as `table_signature`, but "skipping fully
empty rows", i.e. a row contributes no signature unless some cell
normalises to a non-empty string. -/
def spec_table_signature (table : List (List Str)) : List Str :=
  (table.filter (fun row => row.any (fun c => !(normalize_cell c).isEmpty))).map
    (fun row =>
      joinSep " | ".toList
        ((row.filter (fun c => !(normalize_cell c).isEmpty)).map normalize_cell))

/-- Spec-side row signatures built from `spec_table_signature`. -/
def spec_rowSigs (tables : List (List (List Str))) : List Str :=
  (tables.map spec_table_signature).flatten

/-- Spec-side table diff: `(rows_added, rows_removed)` with fully empty
rows contributing no signature. -/
def spec_diff_tables (before_tables after_tables : List (List (List Str))) : ℕ × ℕ :=
  let b := spec_rowSigs before_tables
  let a := spec_rowSigs after_tables
  ((a.dedup.filter (fun s => !b.contains s)).length,
   (b.dedup.filter (fun s => !a.contains s)).length)

/-- Spec-side enumerator of claim C6, read from its words: "optional
opening parenthesis, then 1–3 digits or one uppercase letter, then `.` or
`)`, then whitespace". -/
def spec_enum_core (s : Str) : Bool :=
  (match s with
   | a :: b :: c :: r =>
     (a.isDigit && b.isDigit && c.isDigit && afterPunct r) ||
     (a.isDigit && b.isDigit && afterPunct (c :: r)) ||
     (a.isDigit && afterPunct (b :: c :: r))
   | a :: b :: r => (a.isDigit && b.isDigit && afterPunct r) || (a.isDigit && afterPunct (b :: r))
   | a :: r => a.isDigit && afterPunct r
   | [] => false) ||
  (match s with
   | u :: c :: rest => ('A' ≤ u && u ≤ 'Z') && (c == '.' || c == ')') && headWs rest
   | _ => false)

/-- Spec-side enumerator with its optional opening parenthesis. -/
def spec_enum (l : Str) : Bool :=
  (l.head? == some '(' && spec_enum_core l.tail) || spec_enum_core l

/-- The keep-predicate of claim C6, read from its words: trimmed length at
least `min_len`, and the line starts with the claimed enumerator, a
dash/bullet glyph plus whitespace, or one of the note words. -/
def spec_keeps_bullet (min_len : ℕ) (l : Str) : Bool :=
  min_len ≤ (strip l).length &&
  (spec_enum (strip l) || enumDashed (strip l) || matchNoteWord (strip l))

/-- The signed per-bit accumulator described by the specification of
`simhash64`: over the first 5000 tokens, each token's hash contributes
`+1` to slot `i` when bit `i` is 1 and `-1` otherwise. -/
def spec_accumulator (h : Str → ℕ) (text : Str) (i : ℕ) : ℤ :=
  (((_tokenize text).take 5000).map (fun tok => bitOf (h tok) i)).sum

end DocDiff

/-!
Concrete evaluation checks of the embedding on small inputs, mirroring the
behaviour of the Python functions.
-/

section EvaluationChecks

open DocDiff

example : matchEnum "(1). INSTALL PER PLANS".toList = true := by decide
example : spec_enum "(1). INSTALL PER PLANS".toList = false := by decide
example : matchEnum "(A) VERIFY ALL DIMENSIONS".toList = false := by decide
example : spec_enum "(A) VERIFY ALL DIMENSIONS".toList = true := by decide
example : matchEnum "1. PROVIDE CONDUIT".toList = true := by decide
example : matchEnum "(12) COORDINATE WORK".toList = true := by decide
example : matchNoteWord "NOTES: SEE SHEET".toList = false := by decide
example : matchNoteWord "KEYNOTE 3 APPLIES".toList = true := by decide
example : matchNoteWord "General Notes apply".toList = true := by decide
example : split_note_bullets "(1). INSTALL PER PLANS".toList 12 =
    ["(1). INSTALL PER PLANS".toList] := by decide
example : diff_tables [] [[[[]]]] = (1, 0) := by decide
example : spec_diff_tables [] [[[[]]]] = (0, 0) := by decide
example :
    compute_impact "Added".toList ["cost".toList] [] "new ductwork".toList false =
      (35, "sheet/spec presence changed; flags: cost".toList) := by decide
example : has_responsibility "contractor shall furnish".toList = true := by decide
example : has_responsibility "provided by tenant".toList = false := by decide

end EvaluationChecks

namespace DocDiff

/-! ## Supporting lemmas -/

theorem bitCountAux_congr :
    ∀ fuel₁ fuel₂ n, n ≤ fuel₁ → n ≤ fuel₂ → bitCountAux fuel₁ n = bitCountAux fuel₂ n := by
  intro fuel₁
  induction fuel₁ using Nat.strong_induction_on with
  | _ fuel₁ ih =>
    intro fuel₂ n h₁ h₂
    match fuel₁, h₁ with
    | 0, h₁ =>
      interval_cases n
      match fuel₂ with
      | 0 => rfl
      | f + 1 => simp [bitCountAux]
    | f + 1, h₁ =>
      match fuel₂, h₂ with
      | 0, h₂ =>
        interval_cases n
        simp [bitCountAux]
      | g + 1, h₂ =>
        by_cases hn : n = 0
        · simp [bitCountAux, hn]
        · have hlt : n / 2 < n := Nat.div_lt_self (Nat.pos_of_ne_zero hn) one_lt_two
          have hdiv : n / 2 ≤ f := by omega
          have hdiv' : n / 2 ≤ g := by omega
          simp only [bitCountAux, hn, if_false]
          rw [ih f (Nat.lt_succ_self f) g (n / 2) hdiv hdiv']

theorem bit_count_zero : bit_count 0 = 0 := rfl

theorem bit_count_succ (n : ℕ) (hn : n ≠ 0) :
    bit_count n = n % 2 + bit_count (n / 2) := by
  unfold bit_count
  match n, hn with
  | m + 1, _ =>
    simp only [bitCountAux, Nat.succ_ne_zero, if_false]
    congr 1
    exact bitCountAux_congr m ((m + 1) / 2) ((m + 1) / 2)
      (Nat.le_of_lt_succ (Nat.div_lt_self (Nat.succ_pos m) one_lt_two)) le_rfl

theorem bit_count_le (k : ℕ) : ∀ n, n < 2 ^ k → bit_count n ≤ k := by
  induction k with
  | zero =>
    intro n hn
    interval_cases n
    simp [bit_count_zero]
  | succ k ih =>
    intro n hn
    by_cases hz : n = 0
    · simp [hz, bit_count_zero]
    · rw [bit_count_succ n hz]
      have h2 : n / 2 < 2 ^ k := by
        have hp : 2 ^ (k + 1) = 2 * 2 ^ k := by ring
        omega
      have := ih (n / 2) h2
      omega

theorem hamming_similarity_self (a : ℕ) : hamming_similarity a a = 1 := by
  simp [hamming_similarity, Nat.xor_self, bit_count_zero]

theorem hamming_similarity_nonneg (a b : ℕ) (ha : a < 2 ^ 64) (hb : b < 2 ^ 64) :
    0 ≤ hamming_similarity a b := by
  have hx : a ^^^ b < 2 ^ 64 := Nat.xor_lt_two_pow ha hb
  have hc : bit_count (a ^^^ b) ≤ 64 := bit_count_le 64 _ hx
  have : (bit_count (a ^^^ b) : ℚ) ≤ 64 := by exact_mod_cast hc
  unfold hamming_similarity
  rw [sub_nonneg, div_le_one (by norm_num)]
  exact this

theorem hamming_similarity_le_one (a b : ℕ) : hamming_similarity a b ≤ 1 := by
  unfold hamming_similarity
  have : (0 : ℚ) ≤ (bit_count (a ^^^ b) : ℚ) / 64 := by positivity
  linarith

theorem addBits_length (hv : ℕ) : ∀ i vs, (addBits hv i vs).length = vs.length := by
  intro i vs
  induction vs generalizing i with
  | nil => rfl
  | cons v vs ih => simp [addBits, ih]

theorem outBits_lt : ∀ (vs : List ℤ) (i : ℕ), outBits i vs < 2 ^ (i + vs.length) := by
  intro vs
  induction vs with
  | nil => intro i; simp [outBits]
  | cons v vs ih =>
    intro i
    simp only [outBits]
    apply Nat.or_lt_two_pow
    · by_cases h : (0 : ℤ) ≤ v
      · simp only [h, if_true, Nat.shiftLeft_eq, one_mul, List.length_cons]
        have harr : i < i + (vs.length + 1) := by omega
        exact Nat.pow_lt_pow_right one_lt_two harr
      · simp only [h, if_false]
        exact Nat.pos_pow_of_pos _ (by norm_num)
    · have := ih (i + 1)
      have harr : i + 1 + vs.length = i + (vs.length + 1) := by omega
      simpa [harr] using this

theorem foldl_addBits_length (h : Str → ℕ) :
    ∀ (toks : List Str) (init : List ℤ),
      (toks.foldl (fun vec tok => addBits (h tok) 0 vec) init).length = init.length := by
  intro toks
  induction toks with
  | nil => intro init; rfl
  | cons t ts ih =>
    intro init
    simpa [addBits_length] using ih (addBits (h t) 0 init)

theorem simhash64_lt (h : Str → ℕ) (text : Str) : simhash64 h text < 2 ^ 64 := by
  unfold simhash64
  have hlen : ((((_tokenize text).take 5000)).foldl
      (fun vec tok => addBits (h tok) 0 vec) (List.replicate 64 (0 : ℤ))).length = 64 := by
    simp [foldl_addBits_length]
  have := outBits_lt ((((_tokenize text).take 5000)).foldl
      (fun vec tok => addBits (h tok) 0 vec) (List.replicate 64 (0 : ℤ))) 0
  rw [hlen] at this
  simpa using this

theorem page_fp_lt (h : Str → ℕ) (p : PageExtract) (hp : p.fingerprint < 2 ^ 64) :
    page_fp h p < 2 ^ 64 := by
  unfold page_fp
  split
  · exact hp
  · exact simhash64_lt h p.text

/-! ## Concrete instances used by witness theorems -/

/-- A trivial token hash, used to instantiate the `h` parameter. -/
def zeroHash : Str → ℕ := fun _ => 0

/-- A trivial WRatio, used to instantiate the `wr` parameter. -/
def zeroRatio : Str → Str → ℚ := fun _ _ => 0

/-- A concrete short-hash stand-in: concatenate the parts with a NUL
separator.  (Injective on part lists, unlike the real truncated SHA-1,
which only matters for producing concrete distinct digests.) -/
def concatHash : List Str → Str := fun parts => (parts.map (fun p => p ++ ['\x00'])).flatten

/-- A page with no content at all. -/
def emptyPage : PageExtract :=
  ⟨"a.pdf".toList, 0, [], none, none, "Unknown".toList, [], [], 0⟩

/-- A page carrying sheet id `A-101`. -/
def pageA101 : PageExtract :=
  ⟨"a.pdf".toList, 0, "level 1 rooms".toList, some "A-101".toList,
    some "Floor Plan".toList, "Architectural".toList, [], [], 0⟩

/-- Another page carrying sheet id `A-101`, with different content. -/
def pageA101v2 : PageExtract :=
  ⟨"b.pdf".toList, 0, "level 1 rooms updated".toList, some "A-101".toList,
    some "Floor Plan - Revised".toList, "Architectural".toList, [], [], 0⟩

/-- A change row with identifier `id1`. -/
def rowDupA : ChangeRow :=
  ⟨"id1".toList, "GMP".toList, "BID".toList, "Architectural".toList,
    "Drawing".toList, "A-101".toList, "Added".toList, "first".toList,
    [], [], "High".toList, [], 25, []⟩

/-- A later change row with the same identifier `id1`. -/
def rowDupB : ChangeRow :=
  ⟨"id1".toList, "GMP".toList, "BID".toList, "Architectural".toList,
    "Drawing".toList, "A-101".toList, "Removed".toList, "second".toList,
    [], [], "High".toList, [], 20, []⟩

/-- A page holding one one-row table. -/
def pageTablesBefore : PageExtract :=
  ⟨"a.pdf".toList, 0, [], some "A-101".toList, none, "Architectural".toList,
    [[["A".toList, "1".toList]]], [], 0⟩

/-- A page holding the same table with one extra row. -/
def pageTablesAfter : PageExtract :=
  ⟨"b.pdf".toList, 0, [], some "A-101".toList, none, "Architectural".toList,
    [[["A".toList, "1".toList], ["B".toList, "2".toList]]], [], 0⟩

end DocDiff

namespace DocDiff

/-! ## Claim C2 — `compute_impact` -/

/-- C2: `compute_impact` is a deterministic function of the five listed
arguments (it is a function of exactly those in this embedding) whose
score lies in `[0, 100]` (the score is a natural number, bounded by the
final cap), and change type `"Added"` with exactly one matched flag
group, no table delta and no responsibility language yields score `35`
with the two rationale fragments joined by `"; "` in trigger order. -/
theorem compute_impact_spec (ct : Str) (fl : List Str) (b a : Str) (td : Bool) :
    (compute_impact ct fl b a td).1 ≤ 100 ∧
    (ct = "Added".toList → td = false → has_responsibility a = false →
      ∀ g, fl = [g] →
        compute_impact ct fl b a td =
          (35, "sheet/spec presence changed; flags: ".toList ++ g)) := by
  constructor
  · exact Nat.min_le_right _ _
  · rintro rfl rfl hresp g rfl
    unfold compute_impact
    simp only [hresp]
    norm_num [joinSep]

/-- Witness for C2 at a concrete input. -/
theorem compute_impact_spec_witness :
    compute_impact "Added".toList ["cost".toList] [] "new ductwork".toList false =
      (35, "sheet/spec presence changed; flags: cost".toList) :=
  (compute_impact_spec "Added".toList ["cost".toList] [] "new ductwork".toList false).2
    rfl rfl (by decide) "cost".toList rfl

end DocDiff

namespace DocDiff

/-! ## Claim C8 — `_candidate_pool` -/

theorem pool_sheet_cond_false (src : PageExtract) (to_pages : List PageExtract)
    (hno : ¬ ∃ sid, src.sheet_id = some sid ∧ sid ≠ [] ∧
      ∃ p ∈ to_pages, p.sheet_id = some sid) :
    (truthyOpt src.sheet_id && sheet_index_has to_pages (pyOptStr src.sheet_id)) = false := by
  cases hsid : src.sheet_id with
  | none => simp [truthyOpt]
  | some sid =>
    by_cases hne : sid = []
    · simp [truthyOpt, hne]
    · have hh : sheet_index_has to_pages sid = false := by
        unfold sheet_index_has
        rw [List.any_eq_false]
        intro q hq
        by_cases hqs : q.sheet_id = some sid
        · exact absurd ⟨sid, hsid, hne, q, hq, hqs⟩ hno
        · simp [beq_eq_false_iff_ne, hqs]
      simp [pyOptStr, hsid, hh]

/-- C8: the candidate pool follows the three-step rule: a sheet identifier
present in the target index selects exactly the target pages under that
identifier; otherwise a known discipline shared by at least one target
page selects all target pages of that discipline; otherwise every target
page is a candidate. -/
theorem candidate_pool_spec (src : PageExtract) (to_pages : List PageExtract) :
    (∀ sid, src.sheet_id = some sid → sid ≠ [] →
      (∃ p ∈ to_pages, p.sheet_id = some sid) →
      _candidate_pool src to_pages =
        to_pages.filter (fun p => p.sheet_id == some sid)) ∧
    ((¬ ∃ sid, src.sheet_id = some sid ∧ sid ≠ [] ∧ ∃ p ∈ to_pages, p.sheet_id = some sid) →
      src.discipline ≠ "Unknown".toList →
      (∃ p ∈ to_pages, p.discipline = src.discipline) →
      _candidate_pool src to_pages =
        to_pages.filter (fun p => p.discipline == src.discipline)) ∧
    ((¬ ∃ sid, src.sheet_id = some sid ∧ sid ≠ [] ∧ ∃ p ∈ to_pages, p.sheet_id = some sid) →
      (src.discipline = "Unknown".toList ∨ ¬ ∃ p ∈ to_pages, p.discipline = src.discipline) →
      _candidate_pool src to_pages = to_pages) := by
  refine ⟨?_, ?_, ?_⟩
  · intro sid hs hne ⟨p, hp, hps⟩
    have htr : truthyOpt src.sheet_id = true := by
      simp [hs, truthyOpt, List.isEmpty_iff, hne]
    have hhas : sheet_index_has to_pages (pyOptStr src.sheet_id) = true := by
      simp only [hs, pyOptStr, Option.getD_some, sheet_index_has, List.any_eq_true]
      exact ⟨p, hp, by simp [hps, truthyOpt, List.isEmpty_iff, hne]⟩
    unfold _candidate_pool
    rw [htr, hhas]
    simp only [Bool.and_self, if_true]
    unfold by_sheet_lookup
    rw [hs]
    simp only [pyOptStr, Option.getD_some]
    apply List.filter_congr
    intro q hq
    by_cases hqs : q.sheet_id = some sid
    · simp [hqs, truthyOpt, List.isEmpty_iff, hne]
    · have : (q.sheet_id == some sid) = false := by
        simp [beq_eq_false_iff_ne, hqs]
      simp [this]
  · intro hno hdk ⟨p, hp, hpd⟩
    have hcond := pool_sheet_cond_false src to_pages hno
    unfold _candidate_pool
    rw [hcond]
    simp only [Bool.false_eq_true, if_false]
    rw [bne_iff_ne.mpr hdk]
    simp only [if_true]
    have hne : (to_pages.filter (fun p => p.discipline == src.discipline)).isEmpty = false := by
      rw [List.isEmpty_eq_false_iff_exists_mem]
      exact ⟨p, by simp [List.mem_filter, hp, hpd]⟩
    simp [hne]
  · intro hno hrest
    have hcond := pool_sheet_cond_false src to_pages hno
    unfold _candidate_pool
    rw [hcond]
    simp only [Bool.false_eq_true, if_false]
    rcases hrest with hu | hnop
    · simp [hu]
    · by_cases hd : src.discipline = "Unknown".toList
      · simp [hd]
      · rw [bne_iff_ne.mpr hd]
        simp only [if_true]
        have hfe : (to_pages.filter (fun p => p.discipline == src.discipline)) = [] := by
          rw [List.filter_eq_nil_iff]
          intro q hq
          by_cases hqd : q.discipline = src.discipline
          · exact absurd ⟨q, hq, hqd⟩ hnop
          · simp [beq_eq_false_iff_ne, hqd]
        simp [hfe]

/-- Witness for C8: a source page with sheet id `A-101` pools exactly the
target pages with that id. -/
theorem candidate_pool_spec_witness :
    _candidate_pool pageA101 [emptyPage, pageA101v2] = [pageA101v2] := by
  have h := (candidate_pool_spec pageA101 [emptyPage, pageA101v2]).1
    "A-101".toList rfl (by decide) ⟨pageA101v2, by simp, rfl⟩
  rw [h]
  decide

end DocDiff

namespace DocDiff

/-! ## Claim C3 — equal sheet identifiers dominate the composite score -/

/-- C3: two pages with the same non-empty normalised sheet identifier
score at least the sheet-id-exact weight, for any non-negative weight
configuration, any (non-negative, as documented) `WRatio`, and any other
page attributes.  The fingerprint hypotheses say the stored fingerprints
are genuine 64-bit values, which `ingest.py` guarantees (it stores `0` or
a `simhash64` value). -/
theorem composite_score_sheet_exact (wr : Str → Str → ℚ) (h : Str → ℕ)
    (src dst : PageExtract) (w : Weights) (sid : Str)
    (hwr : ∀ a b, 0 ≤ wr a b)
    (hw1 : 0 ≤ w.sheet_id_exact) (hw2 : 0 ≤ w.title_similarity)
    (hw3 : 0 ≤ w.discipline_similarity) (hw4 : 0 ≤ w.fingerprint_similarity)
    (hs : src.sheet_id = some sid) (hd : dst.sheet_id = some sid) (hne : sid ≠ [])
    (hf1 : src.fingerprint < 2 ^ 64) (hf2 : dst.fingerprint < 2 ^ 64) :
    w.sheet_id_exact ≤ (_composite_score wr h src dst w).1 := by
  have htr : truthyOpt (some sid) = true := by
    simp [truthyOpt, List.isEmpty_iff, hne]
  have hfpn : 0 ≤ hamming_similarity (page_fp h src) (page_fp h dst) :=
    hamming_similarity_nonneg _ _ (page_fp_lt h src hf1) (page_fp_lt h dst hf2)
  have hfpw : 0 ≤ hamming_similarity (page_fp h src) (page_fp h dst) *
      w.fingerprint_similarity := mul_nonneg hfpn hw4
  have htw : ∀ a b : Str, 0 ≤ wr a b / 100 * w.title_similarity := fun a b =>
    mul_nonneg (div_nonneg (hwr a b) (by norm_num)) hw2
  unfold _composite_score
  rw [hs, hd, htr]
  simp only [beq_self_eq_true, Bool.and_self, if_true]
  have hT := htw (strip ((pyOptStr src.sheet_title_hint).map Char.toUpper))
    (strip ((pyOptStr dst.sheet_title_hint).map Char.toUpper))
  split_ifs <;> dsimp only <;> linarith

/-- Witness for C3 at the default weights: two pages sharing sheet id
`A-101` score at least 60. -/
theorem composite_score_sheet_exact_witness :
    defaultWeights.sheet_id_exact ≤
      (_composite_score zeroRatio zeroHash pageA101 pageA101v2 defaultWeights).1 :=
  composite_score_sheet_exact zeroRatio zeroHash pageA101 pageA101v2 defaultWeights
    "A-101".toList (fun _ _ => le_refl 0) (by norm_num [defaultWeights])
    (by norm_num [defaultWeights]) (by norm_num [defaultWeights])
    (by norm_num [defaultWeights]) rfl rfl (by decide)
    (by norm_num [pageA101]) (by norm_num [pageA101v2])

end DocDiff

namespace DocDiff

/-! ## Claim C10 — token-free pages fingerprint to all-ones -/

/-- C10: a text with no token (no lowercase-alphanumeric run of length at
least 3) simhashes to `2^64 - 1`; two such texts have Hamming similarity
exactly 1; and a pair of otherwise attribute-free pages with such texts
receives exactly the full fingerprint-similarity weight from
`_composite_score`, with `fingerprint 1` as the only evidence. -/
theorem simhash_token_free (wr : Str → Str → ℚ) (h : Str → ℕ) (t1 t2 : Str) (w : Weights)
    (e1 : _tokenize t1 = []) (e2 : _tokenize t2 = []) :
    simhash64 h t1 = 2 ^ 64 - 1 ∧
    hamming_similarity (simhash64 h t1) (simhash64 h t2) = 1 ∧
    ∀ src dst : PageExtract, src.text = t1 → dst.text = t2 →
      src.fingerprint = 0 → dst.fingerprint = 0 →
      src.sheet_id = none → dst.sheet_id = none →
      src.sheet_title_hint = none → dst.sheet_title_hint = none →
      src.discipline = "Unknown".toList →
      _composite_score wr h src dst w =
        (w.fingerprint_similarity, [Reason.fingerprint 1]) := by
  have key : ∀ t : Str, _tokenize t = [] → simhash64 h t = 2 ^ 64 - 1 := by
    intro t ht
    unfold simhash64
    rw [ht]
    simp only [List.take_nil, List.foldl_nil]
    decide
  have k1 := key t1 e1
  have k2 := key t2 e2
  have ksim : hamming_similarity (simhash64 h t1) (simhash64 h t2) = 1 := by
    rw [k1, k2]
    exact hamming_similarity_self _
  refine ⟨k1, ksim, ?_⟩
  intro src dst hs1 hs2 hf1 hf2 hid1 hid2 hth1 hth2 hdisc
  have hfp1 : page_fp h src = simhash64 h t1 := by
    unfold page_fp
    simp [hf1, hs1]
  have hfp2 : page_fp h dst = simhash64 h t2 := by
    unfold page_fp
    simp [hf2, hs2]
  unfold _composite_score
  rw [hid1, hid2, hth1, hth2, hdisc, hfp1, hfp2, ksim]
  simp [truthyOpt]

/-- Witness for C10: the empty text tokenises to nothing, fingerprints to
all ones, and two empty pages get exactly the default fingerprint weight
10 with evidence `fingerprint 1`. -/
theorem simhash_token_free_witness :
    simhash64 zeroHash [] = 2 ^ 64 - 1 ∧
    _composite_score zeroRatio zeroHash emptyPage emptyPage defaultWeights =
      (defaultWeights.fingerprint_similarity, [Reason.fingerprint 1]) := by
  have h := simhash_token_free zeroRatio zeroHash [] [] defaultWeights rfl rfl
  exact ⟨h.1, h.2.2 emptyPage emptyPage rfl rfl rfl rfl rfl rfl rfl rfl rfl⟩

end DocDiff

namespace DocDiff

/-! ## Claim C7 — `simhash64` bit characterisation -/

theorem get?_replicate_of_lt {α : Type} (a : α) :
    ∀ n i, i < n → (List.replicate n a).get? i = some a := by
  intro n
  induction n with
  | zero => intro i h; omega
  | succ n ih =>
    intro i h
    cases i with
    | zero => rfl
    | succ i => simpa [List.replicate_succ] using ih i (by omega)

theorem addBits_get (hv : ℕ) :
    ∀ (vs : List ℤ) (i j : ℕ),
      (addBits hv i vs).get? j = (vs.get? j).map (fun v => v + bitOf hv (i + j)) := by
  intro vs
  induction vs with
  | nil => intro i j; simp [addBits]
  | cons v vs ih =>
    intro i j
    cases j with
    | zero => simp [addBits]
    | succ j =>
      simp only [addBits, List.get?_cons_succ]
      rw [ih (i + 1) j]
      have harr : i + 1 + j = i + (j + 1) := by omega
      rw [harr]

theorem foldl_addBits_get (h : Str → ℕ) :
    ∀ (toks : List Str) (init : List ℤ) (j : ℕ),
      (toks.foldl (fun vec tok => addBits (h tok) 0 vec) init).get? j =
        (init.get? j).map (fun v => v + (toks.map (fun tok => bitOf (h tok) j)).sum) := by
  intro toks
  induction toks with
  | nil =>
    intro init j
    simp only [List.foldl_nil, List.map_nil, List.sum_nil]
    cases init.get? j <;> simp
  | cons t ts ih =>
    intro init j
    simp only [List.foldl_cons]
    rw [ih (addBits (h t) 0 init) j, addBits_get (h t) init 0 j]
    cases init.get? j with
    | none => simp
    | some v =>
      simp only [Option.map_some', List.map_cons, List.sum_cons, Nat.zero_add, zero_add]
      congr 1
      ring

theorem outBits_testBit_lt :
    ∀ (vs : List ℤ) (i m : ℕ), m < i → (outBits i vs).testBit m = false := by
  intro vs
  induction vs with
  | nil => intro i m _; simp [outBits, Nat.zero_testBit]
  | cons v vs ih =>
    intro i m hm
    simp only [outBits, Nat.testBit_or]
    rw [ih (i + 1) m (by omega)]
    by_cases h : (0 : ℤ) ≤ v
    · simp only [h, if_true, Nat.shiftLeft_eq, one_mul, Nat.testBit_two_pow]
      have hne : i ≠ m := by omega
      simp [hne]
    · simp [h, Nat.zero_testBit]

theorem outBits_testBit :
    ∀ (vs : List ℤ) (i k : ℕ),
      (outBits i vs).testBit (i + k) =
        (match vs.get? k with
         | some v => decide (0 ≤ v)
         | none => false) := by
  intro vs
  induction vs with
  | nil => intro i k; simp [outBits, Nat.zero_testBit]
  | cons v vs ih =>
    intro i k
    simp only [outBits, Nat.testBit_or]
    cases k with
    | zero =>
      rw [Nat.add_zero, outBits_testBit_lt vs (i + 1) i (by omega)]
      by_cases h : (0 : ℤ) ≤ v
      · simp [h, Nat.shiftLeft_eq, Nat.testBit_two_pow]
      · simp [h, Nat.zero_testBit]
    | succ k =>
      have harr : i + (k + 1) = (i + 1) + k := by omega
      rw [harr, ih (i + 1) k]
      by_cases h : (0 : ℤ) ≤ v
      · simp only [h, if_true, Nat.shiftLeft_eq, one_mul, Nat.testBit_two_pow]
        have hne : i ≠ i + 1 + k := by omega
        simp [hne]
      · simp [h, Nat.zero_testBit]

/-- C7: bit `i` of `simhash64` is set exactly when the signed accumulator
of slot `i` — the sum of `±1` contributions of the (capped, length-≥-3,
lowercase-alphanumeric) token hashes — is non-negative; ties therefore
resolve to 1, and the output is a 64-bit value.  Determinism is inherent:
`simhash64` is a function of the text (given the token-hash function). -/
theorem simhash64_spec (h : Str → ℕ) (text : Str) (i : ℕ) (hi : i < 64) :
    ((simhash64 h text).testBit i = decide (0 ≤ spec_accumulator h text i)) ∧
    simhash64 h text < 2 ^ 64 := by
  refine ⟨?_, simhash64_lt h text⟩
  unfold simhash64 spec_accumulator
  have hbit := outBits_testBit
    (((_tokenize text).take 5000).foldl (fun vec tok => addBits (h tok) 0 vec)
      (List.replicate 64 (0 : ℤ))) 0 i
  rw [Nat.zero_add] at hbit
  rw [hbit, foldl_addBits_get h _ _ i, get?_replicate_of_lt (0 : ℤ) 64 i hi]
  simp

/-- Witness for C7 at a concrete input: with the constant-zero token hash
every bit contributes `-1` per token, so for `"abc def"` (two tokens) the
slot-0 accumulator is `-2` and bit 0 of the output is clear, as the bit
characterisation demands. -/
theorem simhash64_spec_witness :
    ((simhash64 zeroHash "abc def".toList).testBit 0 =
      decide (0 ≤ spec_accumulator zeroHash "abc def".toList 0)) ∧
    simhash64 zeroHash "abc def".toList < 2 ^ 64 :=
  simhash64_spec zeroHash "abc def".toList 0 (by norm_num)

end DocDiff

namespace DocDiff

/-! ## Claim C5 — table diffing

The code of `table_signature` skips a row only when it is an *empty
list*; a row whose cells all normalise to the empty string is *not*
skipped and contributes the empty signature, contrary to the claim's
"fully empty rows skipped".  The counterexample below exhibits the
difference; the amended statement then characterises the implemented
behaviour. -/

/-- C5 counterexample: one table containing a single row with one empty
cell.  The claim's reading ("fully empty rows contribute no signature")
yields `(0, 0)`; the code counts the empty signature as an added row and
returns `(1, 0)`. -/
theorem diff_tables_counterexample :
    diff_tables [] [[[[]]]] = (1, 0) ∧ spec_diff_tables [] [[[[]]]] = (0, 0) := by
  decide

theorem filter_map_comm {α β : Type} (f : α → β) (p : β → Bool) :
    ∀ l : List α, (l.map f).filter p = (l.filter (fun x => p (f x))).map f := by
  intro l
  induction l with
  | nil => rfl
  | cons a l ih => by_cases h : p (f a) <;> simp [h, ih]

theorem joinSep_ne_nil (sep : Str) :
    ∀ l : List Str, l ≠ [] → (∀ x ∈ l, x ≠ []) → joinSep sep l ≠ [] := by
  intro l hl hx
  match l with
  | [x] => exact hx x (by simp)
  | x :: y :: xs =>
    have : x ≠ [] := hx x (by simp)
    simp [joinSep, this]

/-- The only divergence of `table_signature` from the claim's description
is the empty signature: filtering it away yields exactly the spec-side
signature list. -/
theorem table_signature_filter (t : List (List Str)) :
    (table_signature t).filter (fun s => !s.isEmpty) = spec_table_signature t := by
  unfold table_signature spec_table_signature
  rw [filter_map_comm, List.filter_filter]
  congr 1
  apply List.filter_congr
  intro row _
  by_cases h : row.any (fun c => !(normalize_cell c).isEmpty) = true
  · rw [h]
    rcases List.any_eq_true.mp h with ⟨c, hc, hgc⟩
    have hrow : row.isEmpty = false := by
      cases row with
      | nil => exact absurd hc (by simp)
      | cons a l => rfl
    have hfil : (row.filter (fun c => !(normalize_cell c).isEmpty)).map normalize_cell ≠ [] := by
      have : c ∈ row.filter (fun c => !(normalize_cell c).isEmpty) :=
        List.mem_filter.mpr ⟨hc, hgc⟩
      simp only [ne_eq, List.map_eq_nil_iff]
      intro hcon
      rw [hcon] at this
      exact absurd this (by simp)
    have hne : joinSep " | ".toList
        ((row.filter (fun c => !(normalize_cell c).isEmpty)).map normalize_cell) ≠ [] := by
      apply joinSep_ne_nil _ _ hfil
      intro x hxm
      rcases List.mem_map.mp hxm with ⟨c', hc', rfl⟩
      have := (List.mem_filter.mp hc').2
      simpa [List.isEmpty_iff] using this
    simp [List.isEmpty_iff, hrow]
    exact hne
  · have hfalse : row.any (fun c => !(normalize_cell c).isEmpty) = false := by
      simpa using h
    rw [hfalse]
    have hfil : row.filter (fun c => !(normalize_cell c).isEmpty) = [] := by
      rw [List.filter_eq_nil_iff]
      intro c hc
      have := List.any_eq_false.mp hfalse c hc
      simpa using this
    simp [hfil, joinSep]

theorem sdiff_count (a b : List Str) :
    (a.dedup.filter (fun s => !b.contains s)).length = (a.toFinset \ b.toFinset).card := by
  have hnd : (a.dedup.filter (fun s => !b.contains s)).Nodup := a.nodup_dedup.filter _
  rw [← List.toFinset_card_of_nodup hnd]
  congr 1
  ext x
  simp [List.mem_filter, List.mem_dedup, Finset.mem_sdiff]

/-- C5 amended: per side, the signature multiset is the union over the
tables of the row signatures, where only empty-list rows are skipped (a
row of entirely empty cells contributes the empty signature —
`table_signature_filter` above shows this is the only divergence from the
claimed description); `rows_added`/`rows_removed` are the sizes of the
two signature-set differences, and a table change row is emitted for a
matched pair exactly when one of the counts is non-zero, equivalently
when the two signature sets differ. -/
theorem diff_tables_amended (before_tables after_tables : List (List (List Str))) :
    (∀ s, s ∈ rowSigs before_tables ↔ ∃ t ∈ before_tables, s ∈ table_signature t) ∧
    (∀ s, s ∈ rowSigs after_tables ↔ ∃ t ∈ after_tables, s ∈ table_signature t) ∧
    (diff_tables before_tables after_tables).1 =
      ((rowSigs after_tables).toFinset \ (rowSigs before_tables).toFinset).card ∧
    (diff_tables before_tables after_tables).2 =
      ((rowSigs before_tables).toFinset \ (rowSigs after_tables).toFinset).card ∧
    ∀ (sh : List Str → Str) (flags_cfg : List (Str × List Str)) (max_snippet : ℕ)
      (set_from set_to : Str) (source target : PageExtract) (reference confidence : Str),
      source.tables = before_tables → target.tables = after_tables →
      (tables_branch sh flags_cfg max_snippet set_from set_to source target
          reference confidence ≠ [] ↔
        ((diff_tables before_tables after_tables).1 ≠ 0 ∨
         (diff_tables before_tables after_tables).2 ≠ 0)) := by
  refine ⟨?_, ?_, ?_, ?_, ?_⟩
  · intro s
    simp [rowSigs, List.mem_flatten]
  · intro s
    simp [rowSigs, List.mem_flatten]
  · exact sdiff_count _ _
  · exact sdiff_count _ _
  · intro sh flags_cfg max_snippet set_from set_to source target reference confidence hsrc htgt
    unfold tables_branch
    rw [hsrc, htgt]
    by_cases hc : (diff_tables before_tables after_tables).1 ≠ 0 ∨
        (diff_tables before_tables after_tables).2 ≠ 0
    · have hb : ((diff_tables before_tables after_tables).1 ≠ 0 ||
          (diff_tables before_tables after_tables).2 ≠ 0) = true := by
        rcases hc with hc | hc <;> simp [hc]
      simp only [hb, if_true]
      simpa using hc
    · push_neg at hc
      have hb : ((diff_tables before_tables after_tables).1 ≠ 0 ||
          (diff_tables before_tables after_tables).2 ≠ 0) = false := by
        simp [hc.1, hc.2]
      simp only [hb, Bool.false_eq_true, if_false]
      simp [hc.1, hc.2]

/-- Witness for the amended C5: a target page whose single table gained a
row produces exactly one table change row. -/
theorem diff_tables_amended_witness :
    tables_branch concatHash [] 700 "GMP".toList "BID".toList
      pageTablesBefore pageTablesAfter "A-101".toList "Med".toList ≠ [] := by
  have h := (diff_tables_amended pageTablesBefore.tables pageTablesAfter.tables).2.2.2.2
    concatHash [] 700 "GMP".toList "BID".toList pageTablesBefore pageTablesAfter
    "A-101".toList "Med".toList rfl rfl
  rw [h]
  decide

end DocDiff

namespace DocDiff

/-! ## Claim C6 — note bullet qualification

The enumerator branch of the regex allows an optional `)` after the
digits (`\)?`), which the claim omits, and allows no parenthesis around a
single uppercase letter, which the claim grants.  `"(1). …"` is therefore
kept by the code but not by the claim, and `"(A) …"` is kept by the claim
but not by the code. -/

/-- C6 counterexample: two concrete lines on which the code and the
claimed qualification rule disagree, one in each direction. -/
theorem split_note_bullets_counterexample :
    (spec_keeps_bullet 12 "(1). INSTALL PER PLANS".toList = false ∧
     split_note_bullets "(1). INSTALL PER PLANS".toList 12 =
       ["(1). INSTALL PER PLANS".toList]) ∧
    (spec_keeps_bullet 12 "(A) VERIFY ALL DIMENSIONS".toList = true ∧
     split_note_bullets "(A) VERIFY ALL DIMENSIONS".toList 12 = []) := by
  decide

/-- The enumerator grammar actually implemented: optional `(`, one to
three digits, optional `)`, a `.` or `)`, then whitespace; or a single
uppercase letter (no parentheses), a `.` or `)`, then whitespace; or a
dash/bullet glyph then whitespace. -/
def AmendedEnum (l : Str) : Prop :=
  (∃ paren digits close tail, l = paren ++ digits ++ close ++ tail ∧
    (paren = [] ∨ paren = ['(']) ∧ digits ≠ [] ∧ digits.length ≤ 3 ∧
    (∀ c ∈ digits, c.isDigit = true) ∧ (close = [] ∨ close = [')']) ∧
    (∃ p ws, tail = p :: ws ∧ (p = '.' ∨ p = ')') ∧ headWs ws = true)) ∨
  (∃ u p ws, l = u :: p :: ws ∧ 'A' ≤ u ∧ u ≤ 'Z' ∧ (p = '.' ∨ p = ')') ∧
    headWs ws = true) ∨
  (∃ d ws, l = d :: ws ∧ (d = '-' ∨ d = '•') ∧ headWs ws = true)

theorem bor_iff (a b : Bool) : (a || b) = true ↔ (a = true ∨ b = true) := by
  cases a <;> cases b <;> simp

theorem band_iff (a b : Bool) : (a && b) = true ↔ (a = true ∧ b = true) := by
  cases a <;> cases b <;> simp

theorem afterPunct_iff (s : Str) :
    afterPunct s = true ↔
      ∃ p ws, s = p :: ws ∧ (p = '.' ∨ p = ')') ∧ headWs ws = true := by
  cases s with
  | nil =>
    constructor
    · intro h; exact absurd h (by simp [afterPunct])
    · rintro ⟨p, ws, heq, _⟩; exact absurd heq (by simp)
  | cons c r =>
    simp only [afterPunct, Bool.and_eq_true, Bool.or_eq_true, beq_iff_eq]
    constructor
    · rintro ⟨hp, hw⟩
      exact ⟨c, r, rfl, hp, hw⟩
    · rintro ⟨p, ws, heq, hp, hw⟩
      cases heq
      exact ⟨hp, hw⟩

theorem enumTail_iff (s : Str) :
    enumTail s = true ↔
      ∃ close tail, s = close ++ tail ∧ (close = [] ∨ close = [')']) ∧
        afterPunct tail = true := by
  unfold enumTail
  constructor
  · intro h
    rcases (bor_iff _ _).mp h with h1 | h2
    · rcases (band_iff _ _).mp h1 with ⟨hh, hp⟩
      cases s with
      | nil => simp at hh
      | cons c r =>
        have hc : c = ')' := by simpa using hh
        subst hc
        exact ⟨[')'], r, rfl, Or.inr rfl, by simpa using hp⟩
    · exact ⟨[], s, rfl, Or.inl rfl, h2⟩
  · rintro ⟨close, tail, rfl, hclose | hclose, hp⟩
    · subst hclose
      simp only [List.nil_append]
      exact (bor_iff _ _).mpr (Or.inr hp)
    · subst hclose
      apply (bor_iff _ _).mpr
      left
      simp [hp]

theorem enumDigits_iff (s : Str) :
    enumDigits s = true ↔
      ∃ digits tail, s = digits ++ tail ∧ digits ≠ [] ∧ digits.length ≤ 3 ∧
        (∀ c ∈ digits, c.isDigit = true) ∧ enumTail tail = true := by
  have hnotail : enumTail [] = false := by decide
  constructor
  · intro h
    rcases s with _ | ⟨a, _ | ⟨b, _ | ⟨c, r⟩⟩⟩
    · exact absurd h (by decide)
    · rcases (band_iff _ _).mp h with ⟨ha, ht⟩
      exact ⟨[a], [], rfl, by simp, by simp,
        by intro x hx; rw [List.mem_singleton.mp hx]; exact ha, ht⟩
    · rcases (bor_iff _ _).mp h with h1 | h2
      · rcases (band_iff _ _).mp h1 with ⟨h1, ht⟩
        rcases (band_iff _ _).mp h1 with ⟨ha, hb⟩
        refine ⟨[a, b], [], rfl, by simp, by simp, ?_, ht⟩
        intro x hx
        rcases List.mem_cons.mp hx with rfl | hx
        · exact ha
        · rw [List.mem_singleton.mp hx]; exact hb
      · rcases (band_iff _ _).mp h2 with ⟨ha, ht⟩
        exact ⟨[a], [b], rfl, by simp, by simp,
          by intro x hx; rw [List.mem_singleton.mp hx]; exact ha, ht⟩
    · rcases (bor_iff _ _).mp h with h12 | h3
      · rcases (bor_iff _ _).mp h12 with h1 | h2
        · rcases (band_iff _ _).mp h1 with ⟨h1, ht⟩
          rcases (band_iff _ _).mp h1 with ⟨h1, hc⟩
          rcases (band_iff _ _).mp h1 with ⟨ha, hb⟩
          refine ⟨[a, b, c], r, rfl, by simp, by simp, ?_, ht⟩
          intro x hx
          rcases List.mem_cons.mp hx with rfl | hx
          · exact ha
          rcases List.mem_cons.mp hx with rfl | hx
          · exact hb
          · rw [List.mem_singleton.mp hx]; exact hc
        · rcases (band_iff _ _).mp h2 with ⟨h2, ht⟩
          rcases (band_iff _ _).mp h2 with ⟨ha, hb⟩
          refine ⟨[a, b], c :: r, rfl, by simp, by simp, ?_, ht⟩
          intro x hx
          rcases List.mem_cons.mp hx with rfl | hx
          · exact ha
          · rw [List.mem_singleton.mp hx]; exact hb
      · rcases (band_iff _ _).mp h3 with ⟨ha, ht⟩
        exact ⟨[a], b :: c :: r, rfl, by simp, by simp,
          by intro x hx; rw [List.mem_singleton.mp hx]; exact ha, ht⟩
  · rintro ⟨digits, tail, rfl, hne, hlen, hdig, ht⟩
    rcases digits with _ | ⟨a, _ | ⟨b, _ | ⟨c, drest⟩⟩⟩
    · exact absurd rfl hne
    · have ha : a.isDigit = true := hdig a (by simp)
      rcases tail with _ | ⟨x, _ | ⟨y, r⟩⟩
      · rw [hnotail] at ht; exact absurd ht (by simp)
      · exact (bor_iff _ _).mpr (Or.inr ((band_iff _ _).mpr ⟨ha, ht⟩))
      · apply (bor_iff _ _).mpr
        right
        exact (band_iff _ _).mpr ⟨ha, ht⟩
    · have ha : a.isDigit = true := hdig a (by simp)
      have hb : b.isDigit = true := hdig b (by simp)
      rcases tail with _ | ⟨x, r⟩
      · rw [hnotail] at ht; exact absurd ht (by simp)
      · apply (bor_iff _ _).mpr
        left
        apply (bor_iff _ _).mpr
        right
        exact (band_iff _ _).mpr ⟨(band_iff _ _).mpr ⟨ha, hb⟩, ht⟩
    · have hdr : drest = [] := by
        have := hlen
        simp only [List.length_cons] at this
        have hz : drest.length = 0 := by omega
        exact List.eq_nil_of_length_eq_zero hz
      subst hdr
      have ha : a.isDigit = true := hdig a (by simp)
      have hb : b.isDigit = true := hdig b (by simp)
      have hc : c.isDigit = true := hdig c (by simp)
      apply (bor_iff _ _).mpr
      left
      apply (bor_iff _ _).mpr
      left
      exact (band_iff _ _).mpr
        ⟨(band_iff _ _).mpr ⟨(band_iff _ _).mpr ⟨ha, hb⟩, hc⟩, ht⟩

theorem enumNumbered_iff (l : Str) :
    enumNumbered l = true ↔
      ∃ paren rest, l = paren ++ rest ∧ (paren = [] ∨ paren = ['(']) ∧
        enumDigits rest = true := by
  unfold enumNumbered
  constructor
  · intro h
    rcases (bor_iff _ _).mp h with h1 | h2
    · rcases (band_iff _ _).mp h1 with ⟨hh, hd⟩
      cases l with
      | nil => simp at hh
      | cons c r =>
        have hc : c = '(' := by simpa using hh
        subst hc
        exact ⟨['('], r, rfl, Or.inr rfl, by simpa using hd⟩
    · exact ⟨[], l, rfl, Or.inl rfl, h2⟩
  · rintro ⟨paren, rest, rfl, hparen | hparen, hd⟩
    · subst hparen
      simp only [List.nil_append]
      exact (bor_iff _ _).mpr (Or.inr hd)
    · subst hparen
      apply (bor_iff _ _).mpr
      left
      simp [hd]

theorem enumLettered_iff (l : Str) :
    enumLettered l = true ↔
      ∃ u p ws, l = u :: p :: ws ∧ 'A' ≤ u ∧ u ≤ 'Z' ∧ (p = '.' ∨ p = ')') ∧
        headWs ws = true := by
  rcases l with _ | ⟨u, _ | ⟨p, ws⟩⟩
  · constructor
    · intro h; exact absurd h (by decide)
    · rintro ⟨u, p, ws, heq, _⟩; exact absurd heq (by simp)
  · constructor
    · intro h
      rw [show enumLettered [u] = false from rfl] at h
      exact absurd h (by simp)
    · rintro ⟨u', p', ws', heq, _⟩; exact absurd heq (by simp)
  · simp only [enumLettered, Bool.and_eq_true, Bool.or_eq_true, beq_iff_eq,
      decide_eq_true_eq]
    constructor
    · rintro ⟨⟨⟨h1, h2⟩, h3⟩, h4⟩
      exact ⟨u, p, ws, rfl, h1, h2, h3, h4⟩
    · rintro ⟨u', p', ws', heq, h1, h2, h3, h4⟩
      injection heq with e1 e2
      injection e2 with e2 e3
      subst e1; subst e2; subst e3
      exact ⟨⟨⟨h1, h2⟩, h3⟩, h4⟩

theorem enumDashed_iff (l : Str) :
    enumDashed l = true ↔
      ∃ d ws, l = d :: ws ∧ (d = '-' ∨ d = '•') ∧ headWs ws = true := by
  rcases l with _ | ⟨d, ws⟩
  · constructor
    · intro h; exact absurd h (by decide)
    · rintro ⟨d, ws, heq, _⟩; exact absurd heq (by simp)
  · simp only [enumDashed, Bool.and_eq_true, Bool.or_eq_true, beq_iff_eq]
    constructor
    · rintro ⟨h1, h2⟩
      exact ⟨d, ws, rfl, h1, h2⟩
    · rintro ⟨d', ws', heq, h1, h2⟩
      injection heq with e1 e2
      subst e1; subst e2
      exact ⟨h1, h2⟩

theorem matchEnum_iff (l : Str) : matchEnum l = true ↔ AmendedEnum l := by
  unfold matchEnum AmendedEnum
  rw [Bool.or_eq_true, Bool.or_eq_true, enumNumbered_iff, enumLettered_iff, enumDashed_iff]
  constructor
  · rintro ((⟨paren, rest, rfl, hparen, hd⟩ | h2) | h3)
    · rcases (enumDigits_iff rest).mp hd with ⟨digits, tail, rfl, hne, hlen, hdig, ht⟩
      rcases (enumTail_iff tail).mp ht with ⟨close, tail2, rfl, hclose, hp⟩
      rcases (afterPunct_iff tail2).mp hp with ⟨p, ws, rfl, hpd, hws⟩
      exact Or.inl ⟨paren, digits, close, p :: ws, by simp, hparen, hne, hlen, hdig,
        hclose, p, ws, rfl, hpd, hws⟩
    · exact Or.inr (Or.inl h2)
    · exact Or.inr (Or.inr h3)
  · rintro (⟨paren, digits, close, tail, rfl, hparen, hne, hlen, hdig, hclose,
      p, ws, rfl, hpd, hws⟩ | h2 | h3)
    · refine Or.inl (Or.inl ?_)
      refine ⟨paren, digits ++ close ++ p :: ws, by simp, hparen, ?_⟩
      rw [enumDigits_iff]
      refine ⟨digits, close ++ p :: ws, by simp, hne, hlen, hdig, ?_⟩
      rw [enumTail_iff]
      refine ⟨close, p :: ws, rfl, hclose, ?_⟩
      rw [afterPunct_iff]
      exact ⟨p, ws, rfl, hpd, hws⟩
    · exact Or.inl (Or.inr h2)
    · exact Or.inr h3

theorem dedupByKeyAux_mem (key : Str → Str) :
    ∀ (qs seen : List Str) (l : Str),
      l ∈ dedupByKeyAux key seen qs ↔
        (key l ∉ seen ∧ qs.find? (fun b => key b == key l) = some l) := by
  intro qs
  induction qs with
  | nil => intro seen l; simp [dedupByKeyAux]
  | cons b rest ih =>
    intro seen l
    by_cases hb : key b ∈ seen
    · have hbc : seen.contains (key b) = true := List.elem_iff.mpr hb
      simp only [dedupByKeyAux, hbc, if_true]
      rw [ih seen l]
      by_cases hkb : key b = key l
      · have hls : key l ∈ seen := hkb ▸ hb
        constructor
        · rintro ⟨hs, _⟩; exact absurd hls hs
        · rintro ⟨hs, _⟩; exact absurd hls hs
      · have hfind : (b :: rest).find? (fun x => key x == key l) =
            rest.find? (fun x => key x == key l) := by
          exact List.find?_cons_of_neg rest (by simp [hkb])
        rw [hfind]
    · have hbc : seen.contains (key b) = false := by
        rw [← Bool.not_eq_true]
        intro hcon
        exact hb (List.elem_iff.mp hcon)
      simp only [dedupByKeyAux, hbc, Bool.false_eq_true, if_false, List.mem_cons]
      by_cases hlb : l = b
      · subst hlb
        simp only [true_or, true_iff]
        refine ⟨hb, ?_⟩
        exact List.find?_cons_of_pos rest (by simp)
      · simp only [hlb, false_or]
        rw [ih (key b :: seen) l]
        by_cases hkb : key b = key l
        · constructor
          · rintro ⟨hs, _⟩
            exact absurd (by rw [hkb]; exact List.mem_cons_self _ _) hs
          · rintro ⟨hs, hf⟩
            exfalso
            rw [List.find?_cons_of_pos rest (by simp [hkb])] at hf
            exact hlb (by injection hf with h; exact h.symm)
        · have hfind : (b :: rest).find? (fun x => key x == key l) =
              rest.find? (fun x => key x == key l) := by
            exact List.find?_cons_of_neg rest (by simp [hkb])
          rw [hfind]
          constructor
          · rintro ⟨hs, hf⟩
            refine ⟨?_, hf⟩
            intro hmem
            exact hs (List.mem_cons_of_mem _ hmem)
          · rintro ⟨hs, hf⟩
            refine ⟨?_, hf⟩
            intro hmem
            rcases List.mem_cons.mp hmem with he | hmem2
            · exact hkb he.symm
            · exact hs hmem2

/-- C6 amended: a bullet appears in the output of `split_note_bullets`
exactly when it is the first qualifying line (non-empty stripped line of
length at least the minimum that matches the enumerator regex or a note
word) bearing its whitespace-normalised lowercase key — first-seen-order
deduplication; and the enumerator regex recognises exactly the amended
grammar: optional `(`, one to three digits, an *optional `)`*, then `.`
or `)`, then whitespace; or one uppercase letter (without parentheses)
then `.` or `)` then whitespace; or a dash/bullet glyph then
whitespace. -/
theorem split_note_bullets_amended (text : Str) (n : ℕ) (l : Str) :
    (l ∈ split_note_bullets text n ↔
      ((((splitlines text).map strip).filter (fun b => !b.isEmpty)).filter
          (fun b => n ≤ b.length && (matchEnum b || matchNoteWord b))).find?
        (fun b => bullet_key b == bullet_key l) = some l) ∧
    (matchEnum l = true ↔ AmendedEnum l) := by
  constructor
  · unfold split_note_bullets
    rw [dedupByKeyAux_mem]
    simp
  · exact matchEnum_iff l

end DocDiff

namespace DocDiff

/-! ## Claim C9 — merge by identifier, last write wins -/

theorem filter_fst_length_one :
    ∀ (st : List (Str × ChangeRow)) (k : Str),
      (st.map (fun p => p.1)).Nodup → k ∈ st.map (fun p => p.1) →
      (st.filter (fun p => p.1 == k)).length = 1 := by
  intro st
  induction st with
  | nil => intro k _ hm; simp at hm
  | cons p rest ih =>
    intro k hnd hm
    simp only [List.map_cons, List.nodup_cons] at hnd
    rw [List.map_cons] at hm
    rcases List.mem_cons.mp hm with he | hm2
    · rw [List.filter_cons_of_pos (by simp [he])]
      have hnil : rest.filter (fun q => q.1 == k) = [] := by
        rw [List.filter_eq_nil_iff]
        intro q hq
        simp only [beq_iff_eq]
        intro hcon
        exact hnd.1 (by rw [← he, ← hcon]; exact List.mem_map.mpr ⟨q, hq, rfl⟩)
      rw [hnil]
      rfl
    · have hne : (p.1 == k) = false := by
        simp only [beq_eq_false_iff_ne, ne_eq]
        intro hcon
        rcases List.mem_map.mp hm2 with ⟨q, hq, hqe⟩
        exact hnd.1 (by rw [hcon, ← hqe]; exact List.mem_map.mpr ⟨q, hq, rfl⟩)
      rw [List.filter_cons_of_neg (by simp [hne])]
      exact ih k hnd.2 hm2

theorem dictUpsert_inv (st : List (Str × ChangeRow)) (r : ChangeRow)
    (h1 : (st.map (fun p => p.1)).Nodup)
    (h2 : ∀ p ∈ st, p.1 = p.2.change_id) :
    ((dictUpsert st r).map (fun p => p.1)).Nodup ∧
    (∀ p ∈ dictUpsert st r, p.1 = p.2.change_id) ∧
    (∀ k, k ∈ (dictUpsert st r).map (fun p => p.1) ↔
      (k ∈ st.map (fun p => p.1) ∨ k = r.change_id)) ∧
    (∀ k, k ≠ r.change_id →
      ((dictUpsert st r).filter (fun p => p.1 == k)).map (fun p => p.2) =
      (st.filter (fun p => p.1 == k)).map (fun p => p.2)) ∧
    (((dictUpsert st r).filter (fun p => p.1 == r.change_id)).map (fun p => p.2) = [r]) := by
  by_cases hmem : r.change_id ∈ st.map (fun p => p.1)
  · have hany : st.any (fun p => p.1 == r.change_id) = true := by
      rw [List.any_eq_true]
      rcases List.mem_map.mp hmem with ⟨p, hp, hpe⟩
      exact ⟨p, hp, by simp [hpe]⟩
    have hdef : dictUpsert st r =
        st.map (fun p => if p.1 == r.change_id then (p.1, r) else p) := by
      unfold dictUpsert
      rw [hany]
      simp
    have hfst : (st.map (fun p => if p.1 == r.change_id then (p.1, r) else p)).map
        (fun p => p.1) = st.map (fun p => p.1) := by
      rw [List.map_map]
      apply List.map_congr_left
      intro p _
      by_cases hc : p.1 = r.change_id <;> simp [hc]
    refine ⟨?_, ?_, ?_, ?_, ?_⟩
    · rw [hdef, hfst]; exact h1
    · intro p hp
      rw [hdef] at hp
      rcases List.mem_map.mp hp with ⟨q, hq, rfl⟩
      by_cases hc : q.1 = r.change_id
      · simp [hc]
      · simp only [show (q.1 == r.change_id) = false from by simp [hc],
          Bool.false_eq_true, if_false]
        exact h2 q hq
    · intro k
      rw [hdef, hfst]
      constructor
      · exact Or.inl
      · rintro (hk | rfl)
        · exact hk
        · exact hmem
    · intro k hk
      rw [hdef, filter_map_comm]
      have hpred : st.filter
          (fun p => (if p.1 == r.change_id then (p.1, r) else p).1 == k) =
          st.filter (fun p => p.1 == k) := by
        apply List.filter_congr
        intro p _
        by_cases hc : p.1 = r.change_id <;> simp [hc]
      rw [hpred, List.map_map]
      apply List.map_congr_left
      intro p hp
      have hpk : p.1 = k := by simpa using (List.mem_filter.mp hp).2
      have hcp : ¬ p.1 = r.change_id := by
        rw [hpk]; exact hk
      simp [hcp]
    · rw [hdef, filter_map_comm]
      have hpred : st.filter
          (fun p => (if p.1 == r.change_id then (p.1, r) else p).1 == r.change_id) =
          st.filter (fun p => p.1 == r.change_id) := by
        apply List.filter_congr
        intro p _
        by_cases hc : p.1 = r.change_id <;> simp [hc]
      rw [hpred, List.map_map]
      have hlen : (st.filter (fun p => p.1 == r.change_id)).length = 1 :=
        filter_fst_length_one st r.change_id h1 hmem
      rcases List.length_eq_one.mp hlen with ⟨p0, hp0⟩
      have hp0mem : p0 ∈ st.filter (fun p => p.1 == r.change_id) := by
        rw [hp0]; simp
      have hcond : p0.1 = r.change_id := by
        simpa using (List.mem_filter.mp hp0mem).2
      rw [hp0]
      simp [hcond]
  · have hany : st.any (fun p => p.1 == r.change_id) = false := by
      rw [List.any_eq_false]
      intro p hp
      simp only [beq_iff_eq]
      intro hcon
      exact hmem (List.mem_map.mpr ⟨p, hp, hcon⟩)
    have hdef : dictUpsert st r = st ++ [(r.change_id, r)] := by
      unfold dictUpsert
      rw [hany]
      simp
    have hnof : st.filter (fun p => p.1 == r.change_id) = [] := by
      rw [List.filter_eq_nil_iff]
      intro p hp
      simp only [beq_iff_eq]
      intro hcon
      exact hmem (List.mem_map.mpr ⟨p, hp, hcon⟩)
    refine ⟨?_, ?_, ?_, ?_, ?_⟩
    · rw [hdef, List.map_append]
      simp only [List.map_cons, List.map_nil]
      rw [List.nodup_append]
      refine ⟨h1, by simp, ?_⟩
      intro a ha hb
      rw [List.mem_singleton.mp hb] at ha
      exact hmem ha
    · intro p hp
      rw [hdef] at hp
      rcases List.mem_append.mp hp with hp | hp
      · exact h2 p hp
      · rcases List.mem_singleton.mp hp with rfl
        rfl
    · intro k
      rw [hdef, List.map_append]
      simp only [List.map_cons, List.map_nil, List.mem_append, List.mem_singleton]
    · intro k hk
      rw [hdef, List.filter_append]
      have : [(r.change_id, r)].filter (fun p => p.1 == k) = [] := by
        simp [beq_eq_false_iff_ne, Ne.symm hk]
      rw [this, List.append_nil]
    · rw [hdef, List.filter_append, hnof, List.nil_append]
      simp

theorem dictState_inv (rows : List ChangeRow) :
    ((rows.foldl dictUpsert []).map (fun p => p.1)).Nodup ∧
    (∀ p ∈ rows.foldl dictUpsert [], p.1 = p.2.change_id) ∧
    (∀ k, k ∈ (rows.foldl dictUpsert []).map (fun p => p.1) ↔
      k ∈ rows.map (fun r => r.change_id)) ∧
    (∀ k, ((rows.foldl dictUpsert []).filter (fun p => p.1 == k)).map (fun p => p.2) =
      ((rows.reverse).find? (fun r => r.change_id == k)).toList) := by
  induction rows using List.reverseRecOn with
  | nil => simp
  | append_singleton l r ih =>
    obtain ⟨ih1, ih2, ih3, ih4⟩ := ih
    have hfold : (l ++ [r]).foldl dictUpsert [] = dictUpsert (l.foldl dictUpsert []) r := by
      rw [List.foldl_append]
      rfl
    obtain ⟨j1, j2, j3, j4, j5⟩ := dictUpsert_inv (l.foldl dictUpsert []) r ih1 ih2
    rw [hfold]
    refine ⟨j1, j2, ?_, ?_⟩
    · intro k
      rw [j3 k, ih3 k, List.map_append]
      simp only [List.map_cons, List.map_nil, List.mem_append, List.mem_singleton]
    · intro k
      have hrev : (l ++ [r]).reverse = r :: l.reverse := by simp
      rw [hrev]
      by_cases hk : k = r.change_id
      · subst hk
        rw [j5, List.find?_cons_of_pos _ (by simp)]
        rfl
      · rw [j4 k hk, ih4 k,
          List.find?_cons_of_neg _
            (by simp only [beq_iff_eq]; exact fun hcon => hk hcon.symm)]

/-- C9: merging change rows by identifier keeps, for every identifier,
exactly the last-processed row bearing it — filtering the output by an
identifier yields the singleton of the last such input row (or nothing) —
and the output length is the number of distinct identifiers. -/
theorem dedupe_rows_spec (rows : List ChangeRow) :
    (dedupe_rows rows).length = (rows.map (fun r => r.change_id)).dedup.length ∧
    ∀ k, (dedupe_rows rows).filter (fun r => r.change_id == k) =
      ((rows.reverse).find? (fun r => r.change_id == k)).toList := by
  obtain ⟨h1, h2, h3, h4⟩ := dictState_inv rows
  constructor
  · unfold dedupe_rows
    rw [List.length_map]
    have hlen : (rows.foldl dictUpsert []).length =
        ((rows.foldl dictUpsert []).map (fun p => p.1)).length := by
      rw [List.length_map]
    rw [hlen, ← List.toFinset_card_of_nodup h1, ← List.card_toFinset]
    congr 1
    apply Finset.ext
    intro k
    simp only [List.mem_toFinset]
    exact h3 k
  · intro k
    unfold dedupe_rows
    rw [filter_map_comm]
    have hpred : (rows.foldl dictUpsert []).filter (fun p => p.2.change_id == k) =
        (rows.foldl dictUpsert []).filter (fun p => p.1 == k) := by
      apply List.filter_congr
      intro p hp
      rw [h2 p hp]
    rw [hpred]
    exact h4 k

/-- Witness for C9 (derived entirely from `dedupe_rows_spec`, which has no
hypotheses; recorded at a concrete input for concreteness): two rows with
the same identifier collapse to the later one. -/
theorem dedupe_rows_spec_witness :
    (dedupe_rows [rowDupA, rowDupB]).length = 1 ∧
    (dedupe_rows [rowDupA, rowDupB]).filter
        (fun r => r.change_id == "id1".toList) = [rowDupB] := by
  have h := dedupe_rows_spec [rowDupA, rowDupB]
  refine ⟨?_, ?_⟩
  · rw [h.1]
    decide
  · rw [h.2 "id1".toList]
    decide

end DocDiff

namespace DocDiff

/-! ## Claim C4 — `match_pages` greedy resolution -/

theorem composite_score_nonneg (wr : Str → Str → ℚ) (h : Str → ℕ)
    (src dst : PageExtract) (w : Weights)
    (hwr : ∀ a b, 0 ≤ wr a b)
    (hw1 : 0 ≤ w.sheet_id_exact) (hw2 : 0 ≤ w.title_similarity)
    (hw3 : 0 ≤ w.discipline_similarity) (hw4 : 0 ≤ w.fingerprint_similarity)
    (hf1 : src.fingerprint < 2 ^ 64) (hf2 : dst.fingerprint < 2 ^ 64) :
    0 ≤ (_composite_score wr h src dst w).1 := by
  have hfpn : 0 ≤ hamming_similarity (page_fp h src) (page_fp h dst) :=
    hamming_similarity_nonneg _ _ (page_fp_lt h src hf1) (page_fp_lt h dst hf2)
  have hfpw : 0 ≤ hamming_similarity (page_fp h src) (page_fp h dst) *
      w.fingerprint_similarity := mul_nonneg hfpn hw4
  have htw : ∀ a b : Str, 0 ≤ wr a b / 100 * w.title_similarity := fun a b =>
    mul_nonneg (div_nonneg (hwr a b) (by norm_num)) hw2
  have hT := htw (strip ((pyOptStr src.sheet_title_hint).map Char.toUpper))
    (strip ((pyOptStr dst.sheet_title_hint).map Char.toUpper))
  unfold _composite_score
  simp only [apply_ite Prod.fst]
  split_ifs <;> linarith

theorem candidate_pool_subset (src : PageExtract) (to_pages : List PageExtract) :
    ∀ p ∈ _candidate_pool src to_pages, p ∈ to_pages := by
  intro p hp
  unfold _candidate_pool at hp
  by_cases h1 : (truthyOpt src.sheet_id &&
      sheet_index_has to_pages (pyOptStr src.sheet_id)) = true
  · rw [if_pos h1] at hp
    exact (List.mem_filter.mp hp).1
  · rw [if_neg h1] at hp
    by_cases h2 : (src.discipline != "Unknown".toList) = true
    · rw [if_pos h2] at hp
      have hp' : p ∈ (if (!(to_pages.filter
            (fun q => q.discipline == src.discipline)).isEmpty) = true
          then to_pages.filter (fun q => q.discipline == src.discipline)
          else to_pages) := hp
      by_cases h3 : (!(to_pages.filter
          (fun q => q.discipline == src.discipline)).isEmpty) = true
      · rw [if_pos h3] at hp'
        exact (List.mem_filter.mp hp').1
      · rw [if_neg h3] at hp'
        exact hp'
    · rw [if_neg h2] at hp
      exact hp

theorem bestFold_aux (f : PageExtract → ℚ × List Reason) :
    ∀ (l : List PageExtract) (acc : Option PageExtract × ℚ × List Reason),
      ((∀ a ∈ l, (f a).1 ≤ acc.2.1) ∧
        l.foldl (fun acc dst =>
          let sr := f dst
          if acc.2.1 < sr.1 then (some dst, sr.1, sr.2) else acc) acc = acc) ∨
      (∃ j dj, l.get? j = some dj ∧
        l.foldl (fun acc dst =>
          let sr := f dst
          if acc.2.1 < sr.1 then (some dst, sr.1, sr.2) else acc) acc =
          (some dj, f dj) ∧
        acc.2.1 < (f dj).1 ∧
        (∀ m dm, l.get? m = some dm → (f dm).1 ≤ (f dj).1) ∧
        (∀ m dm, l.get? m = some dm → m < j → (f dm).1 < (f dj).1)) := by
  intro l
  induction l with
  | nil =>
    intro acc
    left
    exact ⟨by simp, rfl⟩
  | cons d ds ih =>
    intro acc
    simp only [List.foldl_cons]
    by_cases hd : acc.2.1 < (f d).1
    · have hstep : (if acc.2.1 < (f d).1 then (some d, (f d).1, (f d).2) else acc) =
          (some d, f d) := by rw [if_pos hd]
      rw [hstep]
      rcases ih (some d, f d) with ⟨hall, heq⟩ | ⟨j, dj, hget, heq, hgt, hmax, hfirst⟩
      · right
        refine ⟨0, d, rfl, heq, hd, ?_, ?_⟩
        · intro m dm hm
          cases m with
          | zero =>
            injection hm with hm
            rw [← hm]
          | succ m => exact hall dm (List.get?_mem hm)
        · intro m dm _ hlt
          exact absurd hlt (Nat.not_lt_zero m)
      · right
        refine ⟨j + 1, dj, by simpa using hget, heq, lt_trans hd hgt, ?_, ?_⟩
        · intro m dm hm
          cases m with
          | zero =>
            injection hm with hm
            rw [← hm]
            exact le_of_lt hgt
          | succ m => exact hmax m dm (by simpa using hm)
        · intro m dm hm hlt
          cases m with
          | zero =>
            injection hm with hm
            rw [← hm]
            exact hgt
          | succ m => exact hfirst m dm (by simpa using hm) (by omega)
    · have hstep : (if acc.2.1 < (f d).1 then (some d, (f d).1, (f d).2) else acc) =
          acc := by rw [if_neg hd]
      rw [hstep]
      rcases ih acc with ⟨hall, heq⟩ | ⟨j, dj, hget, heq, hgt, hmax, hfirst⟩
      · left
        refine ⟨?_, heq⟩
        intro a ha
        rcases List.mem_cons.mp ha with rfl | ha
        · exact le_of_not_lt hd
        · exact hall a ha
      · right
        refine ⟨j + 1, dj, by simpa using hget, heq, hgt, ?_, ?_⟩
        · intro m dm hm
          cases m with
          | zero =>
            injection hm with hm
            rw [← hm]
            exact le_trans (le_of_not_lt hd) (le_of_lt hgt)
          | succ m => exact hmax m dm (by simpa using hm)
        · intro m dm hm hlt
          cases m with
          | zero =>
            injection hm with hm
            rw [← hm]
            exact lt_of_le_of_lt (le_of_not_lt hd) hgt
          | succ m => exact hfirst m dm (by simpa using hm) (by omega)

theorem bestFold_spec (f : PageExtract → ℚ × List Reason) (l : List PageExtract)
    (hl : l ≠ []) (hpos : ∀ a ∈ l, 0 ≤ (f a).1) :
    ∃ j dj, l.get? j = some dj ∧ bestFold f l = (some dj, f dj) ∧
      (∀ m dm, l.get? m = some dm → (f dm).1 ≤ (f dj).1) ∧
      (∀ m dm, l.get? m = some dm → m < j → (f dm).1 < (f dj).1) := by
  rcases bestFold_aux f l (none, -1, []) with ⟨hall, _⟩ | ⟨j, dj, hget, heq, _, hmax, hfirst⟩
  · exfalso
    rcases l with _ | ⟨a, l⟩
    · exact hl rfl
    · have h1 := hall a (by simp)
      have h2 := hpos a (by simp)
      simp only at h1
      linarith
  · exact ⟨j, dj, hget, heq, hmax, hfirst⟩

/-- C4: `match_pages` returns one result per source page in source order;
an empty candidate pool yields the unmatched result with score 0, Low
confidence and the single `no candidate` evidence entry; a non-empty pool
yields the highest-scoring candidate, ties resolving to the first maximal
candidate in pool order.  Weights and WRatio values are assumed
non-negative (the library contract) and stored fingerprints 64-bit. -/
theorem match_pages_spec (wr : Str → Str → ℚ) (h : Str → ℕ)
    (from_set to_set : DocSet) (w : Weights)
    (hwr : ∀ a b, 0 ≤ wr a b)
    (hw1 : 0 ≤ w.sheet_id_exact) (hw2 : 0 ≤ w.title_similarity)
    (hw3 : 0 ≤ w.discipline_similarity) (hw4 : 0 ≤ w.fingerprint_similarity)
    (hffp : ∀ p ∈ from_set.pages, p.fingerprint < 2 ^ 64)
    (htfp : ∀ p ∈ to_set.pages, p.fingerprint < 2 ^ 64) :
    (match_pages wr h from_set to_set w).length = from_set.pages.length ∧
    ∀ k src, from_set.pages.get? k = some src →
      ∃ r, (match_pages wr h from_set to_set w).get? k = some r ∧
        r.from_page = src ∧
        (_candidate_pool src to_set.pages = [] →
          r = ⟨src, none, 0, "Low".toList, [Reason.no_candidate]⟩) ∧
        (_candidate_pool src to_set.pages ≠ [] →
          ∃ j dj, (_candidate_pool src to_set.pages).get? j = some dj ∧
            r.to_page = some dj ∧
            r.score = (_composite_score wr h src dj w).1 ∧
            (∀ m dm, (_candidate_pool src to_set.pages).get? m = some dm →
              (_composite_score wr h src dm w).1 ≤
                (_composite_score wr h src dj w).1) ∧
            (∀ m dm, (_candidate_pool src to_set.pages).get? m = some dm → m < j →
              (_composite_score wr h src dm w).1 <
                (_composite_score wr h src dj w).1)) := by
  constructor
  · unfold match_pages
    rw [List.length_map]
  · intro k src hk
    have hsrc_mem : src ∈ from_set.pages := List.get?_mem hk
    have hres : (match_pages wr h from_set to_set w).get? k =
        some (match (bestFold (fun dst => _composite_score wr h src dst w)
            (_candidate_pool src to_set.pages)).1 with
          | none => ⟨src, none, 0, "Low".toList, [Reason.no_candidate]⟩
          | some bp => ⟨src, some bp,
              (bestFold (fun dst => _composite_score wr h src dst w)
                (_candidate_pool src to_set.pages)).2.1,
              _confidence ((bestFold (fun dst => _composite_score wr h src dst w)
                (_candidate_pool src to_set.pages)).2.1),
              (bestFold (fun dst => _composite_score wr h src dst w)
                (_candidate_pool src to_set.pages)).2.2⟩) := by
      unfold match_pages
      rw [List.get?_map, hk]
      rfl
    by_cases hpool : _candidate_pool src to_set.pages = []
    · refine ⟨_, hres, ?_, ?_, ?_⟩
      · rw [hpool]
        rfl
      · intro _
        rw [hpool]
        rfl
      · intro hcon
        exact absurd hpool hcon
    · have hpos : ∀ a ∈ _candidate_pool src to_set.pages,
          0 ≤ ((fun dst => _composite_score wr h src dst w) a).1 := by
        intro a ha
        exact composite_score_nonneg wr h src a w hwr hw1 hw2 hw3 hw4
          (hffp src hsrc_mem) (htfp a (candidate_pool_subset src to_set.pages a ha))
      obtain ⟨j, dj, hget, heq, hmax, hfirst⟩ :=
        bestFold_spec (fun dst => _composite_score wr h src dst w)
          (_candidate_pool src to_set.pages) hpool hpos
      refine ⟨_, hres, ?_, ?_, ?_⟩
      · rw [heq]
      · intro hcon
        exact absurd hcon (by simp [hpool])
      · intro _
        refine ⟨j, dj, hget, ?_, ?_, hmax, hfirst⟩
        · rw [heq]
        · rw [heq]

/-- Witness for C4: with no target pages, the single source page yields
the unmatched result with score 0, Low confidence and the `no candidate`
evidence. -/
theorem match_pages_spec_witness :
    (match_pages zeroRatio zeroHash ⟨"GMP".toList, ".".toList, [pageA101]⟩
        ⟨"BID".toList, ".".toList, []⟩ defaultWeights).get? 0 =
      some ⟨pageA101, none, 0, "Low".toList, [Reason.no_candidate]⟩ := by
  obtain ⟨r, hr, _, hempty, _⟩ :=
    (match_pages_spec zeroRatio zeroHash ⟨"GMP".toList, ".".toList, [pageA101]⟩
        ⟨"BID".toList, ".".toList, []⟩ defaultWeights
        (fun _ _ => le_refl 0) (by norm_num [defaultWeights])
        (by norm_num [defaultWeights]) (by norm_num [defaultWeights])
        (by norm_num [defaultWeights])
        (by intro p hp; rcases List.mem_singleton.mp hp with rfl
            norm_num [pageA101])
        (by intro p hp; simp at hp)).2 0 pageA101 rfl
  rw [hr, hempty (by decide)]

end DocDiff

namespace DocDiff

/-! ## Claim C1 — spec-section diffing (v0.1 script) -/

theorem sortStr_perm (l : List Str) : (sortStr l).Perm l :=
  List.perm_insertionSort _ l

theorem mem_sortStr (l : List Str) (x : Str) : x ∈ sortStr l ↔ x ∈ l :=
  (sortStr_perm l).mem_iff

theorem nodup_sortStr (l : List Str) (h : l.Nodup) : (sortStr l).Nodup :=
  ((sortStr_perm l).nodup_iff).mpr h

theorem countP_map' {α β : Type} (f : α → β) (p : β → Bool) (l : List α) :
    (l.map f).countP p = l.countP (fun a => p (f a)) := by
  induction l with
  | nil => rfl
  | cons a l ih => by_cases h : p (f a) <;> simp [List.countP_cons, h, ih]

theorem countP_eq_ite_of_nodup (l : List Str) (sec : Str) (h : l.Nodup) :
    l.countP (fun k => k == sec) = if sec ∈ l then 1 else 0 := by
  induction l with
  | nil => simp
  | cons a l ih =>
    simp only [List.nodup_cons] at h
    rw [List.countP_cons, ih h.2]
    by_cases ha : a = sec
    · subst ha
      simp [h.1]
    · have hne : (a == sec) = false := by simp [ha]
      have hmem : (sec ∈ a :: l) = (sec ∈ l) := by
        simp only [List.mem_cons, eq_iff_iff]
        constructor
        · rintro (rfl | hm)
          · exact absurd rfl ha
          · exact hm
        · exact Or.inr
      rw [hne]
      simp only [hmem]
      simp

/-- C1: over any pair of section dictionaries (association lists with
distinct keys), the v0.1 spec-section diff emits exactly one `Added` row
per key only in the after dictionary, one `Removed` row per key only in
the before dictionary, one `Modified` row per common key whose
whitespace-normalised chunks hash differently (with both chunks retained
truncated to the snippet limit), and no row at all for common keys whose
hashes agree. -/
theorem spec_section_changes_spec (sh : List Str → Str)
    (flags_cfg : List (Str × List Str)) (max_snip : ℕ) (set_from set_to : Str)
    (f_secs t_secs : List (Str × Str))
    (hf : (f_secs.map (fun p => p.1)).Nodup)
    (ht : (t_secs.map (fun p => p.1)).Nodup)
    (rows : List V0.ChangeRow)
    (hrows : rows =
      V0.spec_section_changes sh flags_cfg max_snip set_from set_to f_secs t_secs) :
    (∀ sec,
      rows.countP (fun r => r.change_type == "Added".toList && r.reference == sec) =
        (if sec ∈ t_secs.map (fun p => p.1) ∧ sec ∉ f_secs.map (fun p => p.1)
         then 1 else 0) ∧
      rows.countP (fun r => r.change_type == "Removed".toList && r.reference == sec) =
        (if sec ∈ f_secs.map (fun p => p.1) ∧ sec ∉ t_secs.map (fun p => p.1)
         then 1 else 0) ∧
      rows.countP (fun r => r.change_type == "Modified".toList && r.reference == sec) =
        (if sec ∈ f_secs.map (fun p => p.1) ∧ sec ∈ t_secs.map (fun p => p.1) ∧
            sh [normalize_whitespace (V0.lookupSec f_secs sec)] ≠
              sh [normalize_whitespace (V0.lookupSec t_secs sec)]
         then 1 else 0) ∧
      (sec ∈ f_secs.map (fun p => p.1) → sec ∈ t_secs.map (fun p => p.1) →
        sh [normalize_whitespace (V0.lookupSec f_secs sec)] =
          sh [normalize_whitespace (V0.lookupSec t_secs sec)] →
        rows.countP (fun r => r.reference == sec) = 0)) ∧
    (∀ r ∈ rows,
      (r.change_type = "Added".toList →
        r.before_snippet = [] ∧
        r.after_snippet = (V0.lookupSec t_secs r.reference).take max_snip) ∧
      (r.change_type = "Removed".toList →
        r.before_snippet = (V0.lookupSec f_secs r.reference).take max_snip ∧
        r.after_snippet = []) ∧
      (r.change_type = "Modified".toList →
        r.before_snippet = (V0.lookupSec f_secs r.reference).take max_snip ∧
        r.after_snippet = (V0.lookupSec t_secs r.reference).take max_snip)) := by
  subst hrows
  unfold V0.spec_section_changes
  set fk := f_secs.map (fun p => p.1) with hfk
  set tk := t_secs.map (fun p => p.1) with htk
  set addedKeys := sortStr (tk.filter (fun k => !fk.contains k)) with haddk
  set removedKeys := sortStr (fk.filter (fun k => !tk.contains k)) with hremk
  set modKeys := (sortStr (fk.filter (fun k => tk.contains k))).filter
      (fun sec =>
        sh [normalize_whitespace (V0.lookupSec f_secs sec)] !=
        sh [normalize_whitespace (V0.lookupSec t_secs sec)]) with hmodk
  have hmem_add : ∀ sec, sec ∈ addedKeys ↔ (sec ∈ tk ∧ sec ∉ fk) := by
    intro sec
    rw [haddk, mem_sortStr, List.mem_filter]
    simp [List.elem_iff]
  have hmem_rem : ∀ sec, sec ∈ removedKeys ↔ (sec ∈ fk ∧ sec ∉ tk) := by
    intro sec
    rw [hremk, mem_sortStr, List.mem_filter]
    simp [List.elem_iff]
  have hmem_mod : ∀ sec, sec ∈ modKeys ↔ (sec ∈ fk ∧ sec ∈ tk ∧
      sh [normalize_whitespace (V0.lookupSec f_secs sec)] ≠
        sh [normalize_whitespace (V0.lookupSec t_secs sec)]) := by
    intro sec
    rw [hmodk, List.mem_filter, mem_sortStr, List.mem_filter]
    simp only [bne_iff_ne, ne_eq, List.elem_iff]
    tauto
  have hnd_add : addedKeys.Nodup := nodup_sortStr _ (ht.filter _)
  have hnd_rem : removedKeys.Nodup := nodup_sortStr _ (hf.filter _)
  have hnd_mod : modKeys.Nodup := (nodup_sortStr _ (hf.filter _)).filter _
  constructor
  · intro sec
    refine ⟨?_, ?_, ?_, ?_⟩
    · rw [List.countP_append, List.countP_append, countP_map', countP_map', countP_map']
      have c1 : addedKeys.countP (fun k =>
          (V0.mkAdded sh flags_cfg max_snip set_from set_to t_secs k).change_type ==
            "Added".toList &&
          (V0.mkAdded sh flags_cfg max_snip set_from set_to t_secs k).reference == sec) =
          addedKeys.countP (fun k => k == sec) := by
        apply List.countP_congr
        intro k _
        simp [V0.mkAdded]
      have c2 : removedKeys.countP (fun k =>
          (V0.mkRemoved sh max_snip set_from set_to f_secs k).change_type ==
            "Added".toList &&
          (V0.mkRemoved sh max_snip set_from set_to f_secs k).reference == sec) = 0 := by
        rw [List.countP_eq_zero]
        intro k _
        simp [V0.mkRemoved]
      have c3 : modKeys.countP (fun k =>
          (V0.mkModified sh flags_cfg max_snip set_from set_to f_secs t_secs k).change_type ==
            "Added".toList &&
          (V0.mkModified sh flags_cfg max_snip set_from set_to f_secs t_secs k).reference ==
            sec) = 0 := by
        rw [List.countP_eq_zero]
        intro k _
        simp [V0.mkModified]
      rw [c1, c2, c3, countP_eq_ite_of_nodup _ _ hnd_add]
      by_cases hm : sec ∈ tk ∧ sec ∉ fk
      · rw [if_pos ((hmem_add sec).mpr hm), if_pos hm]
      · rw [if_neg (fun hcon => hm ((hmem_add sec).mp hcon)), if_neg hm]
    · rw [List.countP_append, List.countP_append, countP_map', countP_map', countP_map']
      have c1 : addedKeys.countP (fun k =>
          (V0.mkAdded sh flags_cfg max_snip set_from set_to t_secs k).change_type ==
            "Removed".toList &&
          (V0.mkAdded sh flags_cfg max_snip set_from set_to t_secs k).reference == sec) =
          0 := by
        rw [List.countP_eq_zero]
        intro k _
        simp [V0.mkAdded]
      have c2 : removedKeys.countP (fun k =>
          (V0.mkRemoved sh max_snip set_from set_to f_secs k).change_type ==
            "Removed".toList &&
          (V0.mkRemoved sh max_snip set_from set_to f_secs k).reference == sec) =
          removedKeys.countP (fun k => k == sec) := by
        apply List.countP_congr
        intro k _
        simp [V0.mkRemoved]
      have c3 : modKeys.countP (fun k =>
          (V0.mkModified sh flags_cfg max_snip set_from set_to f_secs t_secs k).change_type ==
            "Removed".toList &&
          (V0.mkModified sh flags_cfg max_snip set_from set_to f_secs t_secs k).reference ==
            sec) = 0 := by
        rw [List.countP_eq_zero]
        intro k _
        simp [V0.mkModified]
      rw [c1, c2, c3, countP_eq_ite_of_nodup _ _ hnd_rem]
      by_cases hm : sec ∈ fk ∧ sec ∉ tk
      · rw [if_pos ((hmem_rem sec).mpr hm), if_pos hm]
      · rw [if_neg (fun hcon => hm ((hmem_rem sec).mp hcon)), if_neg hm]
    · rw [List.countP_append, List.countP_append, countP_map', countP_map', countP_map']
      have c1 : addedKeys.countP (fun k =>
          (V0.mkAdded sh flags_cfg max_snip set_from set_to t_secs k).change_type ==
            "Modified".toList &&
          (V0.mkAdded sh flags_cfg max_snip set_from set_to t_secs k).reference == sec) =
          0 := by
        rw [List.countP_eq_zero]
        intro k _
        simp [V0.mkAdded]
      have c2 : removedKeys.countP (fun k =>
          (V0.mkRemoved sh max_snip set_from set_to f_secs k).change_type ==
            "Modified".toList &&
          (V0.mkRemoved sh max_snip set_from set_to f_secs k).reference == sec) = 0 := by
        rw [List.countP_eq_zero]
        intro k _
        simp [V0.mkRemoved]
      have c3 : modKeys.countP (fun k =>
          (V0.mkModified sh flags_cfg max_snip set_from set_to f_secs t_secs k).change_type ==
            "Modified".toList &&
          (V0.mkModified sh flags_cfg max_snip set_from set_to f_secs t_secs k).reference ==
            sec) = modKeys.countP (fun k => k == sec) := by
        apply List.countP_congr
        intro k _
        simp [V0.mkModified]
      rw [c1, c2, c3, countP_eq_ite_of_nodup _ _ hnd_mod]
      by_cases hm : sec ∈ fk ∧ sec ∈ tk ∧
          sh [normalize_whitespace (V0.lookupSec f_secs sec)] ≠
            sh [normalize_whitespace (V0.lookupSec t_secs sec)]
      · rw [if_pos ((hmem_mod sec).mpr hm), if_pos hm]
      · rw [if_neg (fun hcon => hm ((hmem_mod sec).mp hcon)), if_neg hm]
    · intro hinf hint hhash
      rw [List.countP_append, List.countP_append, countP_map', countP_map', countP_map']
      have c1 : addedKeys.countP (fun k =>
          (V0.mkAdded sh flags_cfg max_snip set_from set_to t_secs k).reference == sec) =
          0 := by
        rw [List.countP_eq_zero]
        intro k hk
        simp only [V0.mkAdded, beq_iff_eq]
        intro hcon
        exact ((hmem_add k).mp hk).2 (hcon ▸ hinf)
      have c2 : removedKeys.countP (fun k =>
          (V0.mkRemoved sh max_snip set_from set_to f_secs k).reference == sec) = 0 := by
        rw [List.countP_eq_zero]
        intro k hk
        simp only [V0.mkRemoved, beq_iff_eq]
        intro hcon
        exact ((hmem_rem k).mp hk).2 (hcon ▸ hint)
      have c3 : modKeys.countP (fun k =>
          (V0.mkModified sh flags_cfg max_snip set_from set_to f_secs t_secs k).reference ==
            sec) = 0 := by
        rw [List.countP_eq_zero]
        intro k hk
        simp only [V0.mkModified, beq_iff_eq]
        intro hcon
        subst hcon
        exact ((hmem_mod k).mp hk).2.2 hhash
      rw [c1, c2, c3]
  · intro r hr
    rcases List.mem_append.mp hr with hr' | hrm
    · rcases List.mem_append.mp hr' with hra | hrr
      · rcases List.mem_map.mp hra with ⟨sec, _, rfl⟩
        refine ⟨fun _ => ⟨rfl, rfl⟩, fun hcon => ?_, fun hcon => ?_⟩
        · rw [show (V0.mkAdded sh flags_cfg max_snip set_from set_to t_secs
              sec).change_type = "Added".toList from rfl] at hcon
          exact absurd hcon (by decide)
        · rw [show (V0.mkAdded sh flags_cfg max_snip set_from set_to t_secs
              sec).change_type = "Added".toList from rfl] at hcon
          exact absurd hcon (by decide)
      · rcases List.mem_map.mp hrr with ⟨sec, _, rfl⟩
        refine ⟨fun hcon => ?_, fun _ => ⟨rfl, rfl⟩, fun hcon => ?_⟩
        · rw [show (V0.mkRemoved sh max_snip set_from set_to f_secs
              sec).change_type = "Removed".toList from rfl] at hcon
          exact absurd hcon (by decide)
        · rw [show (V0.mkRemoved sh max_snip set_from set_to f_secs
              sec).change_type = "Removed".toList from rfl] at hcon
          exact absurd hcon (by decide)
    · rcases List.mem_map.mp hrm with ⟨sec, _, rfl⟩
      refine ⟨fun hcon => ?_, fun hcon => ?_, fun _ => ⟨rfl, rfl⟩⟩
      · rw [show (V0.mkModified sh flags_cfg max_snip set_from set_to f_secs t_secs
            sec).change_type = "Modified".toList from rfl] at hcon
        exact absurd hcon (by decide)
      · rw [show (V0.mkModified sh flags_cfg max_snip set_from set_to f_secs t_secs
            sec).change_type = "Modified".toList from rfl] at hcon
        exact absurd hcon (by decide)

/-- A before-side section dictionary with one section. -/
def fSecsW : List (Str × Str) :=
  [("07 21 00".toList, "SECTION 07 21 00 old insulation".toList)]

/-- An after-side section dictionary: the common section changed and one
section was added. -/
def tSecsW : List (Str × Str) :=
  [("07 21 00".toList, "SECTION 07 21 00 new insulation".toList),
   ("09 29 00".toList, "SECTION 09 29 00 gypsum".toList)]

/-- Witness for C1: on concrete section dictionaries the diff emits one
`Added` row for the new key and one `Modified` row for the changed common
key. -/
theorem spec_section_changes_spec_witness :
    (V0.spec_section_changes concatHash [] 700 "GMP".toList "BID".toList
        fSecsW tSecsW).countP
      (fun r => r.change_type == "Added".toList &&
        r.reference == "09 29 00".toList) = 1 ∧
    (V0.spec_section_changes concatHash [] 700 "GMP".toList "BID".toList
        fSecsW tSecsW).countP
      (fun r => r.change_type == "Modified".toList &&
        r.reference == "07 21 00".toList) = 1 := by
  have h := spec_section_changes_spec concatHash [] 700 "GMP".toList "BID".toList
    fSecsW tSecsW (by decide) (by decide) _ rfl
  refine ⟨?_, ?_⟩
  · rw [(h.1 "09 29 00".toList).1]
    decide
  · rw [(h.1 "07 21 00".toList).2.2.1]
    decide

end DocDiff
